import Mathlib

/-!
# Verification of the NHRL-MCP bracket reconstruction and enrichment engine

This file gives a shallow embedding, in Lean 4, of the bracket
reconstruction / cross-entity enrichment core of the NHRL-MCP repository
(the Go functions `getBracket`, `getBracketRound`, `getBracketStandings`,
`enrichGameForBracket`, `getRoundName`, `getChampions`,
`getBracketTypeFromRound`, `abs` in the bracket tool file, plus
`enrichPlayerDataWithProfileDetails` in `api.go` and
`enrichPlayerWithNHRLStats` in `tools_nhrl.go`), and proves or refutes the
frozen claims about that code.

Modelling conventions:
* Go's `map[string]interface{}` / `[]interface{}` values (decoded JSON) are
  embedded as the inductive type `JVal`; an object is an association list
  of string keys.  Reading a missing key from a Go map yields the `nil`
  interface value, which behaves exactly like a stored JSON `null` for all
  the type assertions this code performs, so `Obj.getV` returns `JVal.null`
  for a missing key.
* JSON numbers are decoded by Go into `float64`.  Every number the claims
  touch (scores, rounds, placements, wins, losses, ranks) is integral and
  far below 2^53, where `float64` arithmetic and comparison agree with
  integer arithmetic, so numbers are embedded as `Int`.
* A Go type assertion `v.(T)` in comma-ok form is a `match` that falls
  through on failure; the non-comma-ok form panics, which is modelled by
  an `Option` result (`none` = panic) where relevant.
* Calls into the two external HTTP services are parameters of the
  embedding (`NHRLEnv`), never modelled as succeeding or failing a priori.
-/

namespace NHRLMCP

/-- Embedded dynamic (JSON-decoded) Go value: the result of
`json.Unmarshal` into `interface{}`. -/
inductive JVal where
  | null : JVal
  | bool : Bool → JVal
  | num  : Int → JVal
  | str  : String → JVal
  | arr  : List JVal → JVal
  | obj  : List (String × JVal) → JVal

/-- A Go `map[string]interface{}` (one level of a decoded JSON object),
embedded as an association list. -/
abbrev Obj := List (String × JVal)

namespace Obj

/-- Raw key lookup: `some v` iff the key is present. Models the comma-ok
presence test `v, ok := m[k]`. -/
def get? (o : Obj) (k : String) : Option JVal :=
  match o with
  | [] => none
  | (k', v) :: rest => if k' = k then some v else get? rest k

/-- Go map read `m[k]`: a missing key reads as the nil interface value,
which this embedding identifies with `JVal.null` (both fail every type
assertion the source performs). -/
def getV (o : Obj) (k : String) : JVal :=
  (o.get? k).getD .null

/-- Go map write `m[k] = v`: replace the binding if the key is present,
otherwise append it. -/
def set (o : Obj) (k : String) (v : JVal) : Obj :=
  match o with
  | [] => [(k, v)]
  | (k', v') :: rest => if k' = k then (k', v) :: rest else (k', v') :: set rest k v

end Obj

/-- `v.(string)` comma-ok type assertion. -/
def asStr? (v : JVal) : Option String :=
  match v with
  | .str s => some s
  | _ => none

/-- `v.(float64)` comma-ok type assertion (numbers embedded as `Int`). -/
def asNum? (v : JVal) : Option Int :=
  match v with
  | .num n => some n
  | _ => none

/-- `v.(bool)` comma-ok type assertion. -/
def asBool? (v : JVal) : Option Bool :=
  match v with
  | .bool b => some b
  | _ => none

/-! ## Round classification (`getBracketTypeFromRound`, `abs`, `getRoundName`) -/

/-- The source's `abs` helper (file `part_006`, bottom): `if n < 0 { return -n }`. -/
def goAbs (n : Int) : Int :=
  if n < 0 then -n else n

/-- `getBracketTypeFromRound` (file `part_006`): negative round means the
losers bracket, anything else the winners bracket; the tournament format
is not consulted. -/
def getBracketTypeFromRound (round : Int) : String :=
  if round < 0 then "losers" else "winners"

/-- The bracket type assigned while organising games in `getBracket`
(file `part_006`, lines 126‑134): `"main"` unless the format is
double elimination, in which case the sign of the round selects
winners/losers. -/
def bracketTypeOf (formatType : String) (round : Int) : String :=
  if formatType = "double_elimination" then
    (if round < 0 then "losers" else "winners")
  else "main"

/-- Wrap an integer into the signed 64-bit range, as Go's `int` does. -/
def int64wrap (n : Int) : Int :=
  (n + 2 ^ 63) % 2 ^ 64 - 2 ^ 63

/-- Go's `1 << uint(round)` where `round` is an `int` and the result is
used as an `int`: a shift count outside `[0, 64)` (after conversion of a
negative `round` to a huge `uint`) yields `0`, and counts in range wrap
modulo 2^64 into the signed range. -/
def goShl1 (r : Int) : Int :=
  if 0 ≤ r ∧ r < 64 then int64wrap (2 ^ r.toNat) else 0

/-- `getRoundName` (file `part_006`, lines 471‑488), translated clause by
clause: depth-from-final names for single-elimination formats or winners
brackets, `Losers Round N` for losers brackets, `Round N` otherwise. -/
def getRoundName (round : Int) (bracketType : String) (formatType : String) : String :=
  if formatType = "single_elimination" ∨ bracketType = "winners" then
    if round = 1 then "Finals"
    else if round = 2 then "Semifinals"
    else if round = 3 then "Quarterfinals"
    else s!"Round of {goShl1 round}"
  else if bracketType = "losers" then
    s!"Losers Round {round}"
  else
    s!"Round {round}"

/-- The depth-from-final naming scheme as the spec words it:
`1 ↦ Finals`, `2 ↦ Semifinals`, `3 ↦ Quarterfinals`, otherwise
`Round of 2^R`.  (Spec-side definition, for comparison with
`getRoundName`.) -/
def depthRoundName (r : Int) : String :=
  if r = 1 then "Finals"
  else if r = 2 then "Semifinals"
  else if r = 3 then "Quarterfinals"
  else s!"Round of {(2 : Int) ^ r.toNat}"

theorem int64wrap_eq_self {n : Int} (h0 : -2 ^ 63 ≤ n) (h1 : n < 2 ^ 63) :
    int64wrap n = n := by
  unfold int64wrap
  have : (n + 2 ^ 63) % 2 ^ 64 = n + 2 ^ 63 := Int.emod_eq_of_lt (by omega) (by omega)
  omega

theorem goShl1_eq_pow {r : Int} (h0 : 0 ≤ r) (h1 : r ≤ 62) :
    goShl1 r = 2 ^ r.toNat := by
  unfold goShl1
  rw [if_pos ⟨h0, by omega⟩]
  have hle : (2 : Int) ^ r.toNat ≤ 2 ^ 62 := by
    apply pow_le_pow_right₀ (by norm_num)
    omega
  have hpos : (0 : Int) ≤ 2 ^ r.toNat := by positivity
  exact int64wrap_eq_self (by nlinarith) (by nlinarith)

/-- Positive checks of the values the spec's examples list for depth
naming, plus the losers-round name. -/
theorem getRoundName_eval_examples :
    getRoundName 1 "winners" "double_elimination" = "Finals" ∧
    getRoundName 2 "winners" "double_elimination" = "Semifinals" ∧
    getRoundName 3 "winners" "double_elimination" = "Quarterfinals" ∧
    getRoundName 4 "winners" "double_elimination" = "Round of 16" ∧
    getRoundName 5 "losers" "double_elimination" = "Losers Round 5" ∧
    getRoundName 1 "main" "single_elimination" = "Finals" :=
  ⟨rfl, rfl, rfl, rfl, rfl, rfl⟩

/-- C2 counterexample.  The claim says every round of a winners *or main*
bracket is named depth-from-final; but `getRoundName` only takes the
depth-naming branch when the format is `single_elimination` or the
bracket type is `winners`.  A main bracket of any other format (the code
assigns bracket type `"main"` exactly when the format is not double
elimination, e.g. a round-robin event) gets `"Round N"`: round 1 of a
round-robin main bracket is named `"Round 1"`, not `"Finals"`.
Additionally, the claimed `"Round of 2^R"` fails at `R = 63`: the Go
expression `1 << uint(round)` overflows `int64` and prints the wrapped
negative value. -/
theorem claim_C2_counterexample :
    getRoundName 1 "main" "round_robin" = "Round 1" ∧
    getRoundName 1 "main" "round_robin" ≠ "Finals" ∧
    getRoundName 63 "winners" "double_elimination" =
      "Round of -9223372036854775808" := by
  refine ⟨rfl, ?_, rfl⟩
  decide

/-- C2 (amended): for every round `1 ≤ R ≤ 62`, a **winners** bracket
round is named depth-from-final (`1 ↦ Finals`, `2 ↦ Semifinals`,
`3 ↦ Quarterfinals`, otherwise `Round of 2^R`) under every format; a
**main** bracket round gets that depth naming only under the
`single_elimination` format and is otherwise named `"Round R"`; a
**losers** bracket round is named `"Losers Round R"` except under the
`single_elimination` format (where the depth branch shadows it — in the
assembled bracket, losers rounds only arise for double elimination).
Beyond `R = 62` the `1 << R` width overflow makes the label wrap. -/
theorem claim_C2_round_naming_amended (R : Int) (f : String)
    (h1 : 1 ≤ R) (h2 : R ≤ 62) :
    getRoundName R "winners" f = depthRoundName R ∧
    getRoundName R "main" f =
      (if f = "single_elimination" then depthRoundName R else s!"Round {R}") ∧
    getRoundName R "losers" f =
      (if f = "single_elimination" then depthRoundName R else s!"Losers Round {R}") := by
  have hshl : goShl1 R = 2 ^ R.toNat := goShl1_eq_pow (by omega) h2
  refine ⟨?_, ?_, ?_⟩
  · simp only [getRoundName, depthRoundName, hshl]
    simp
  · by_cases hf : f = "single_elimination"
    · simp [getRoundName, depthRoundName, hshl, hf]
    · have : ¬(f = "single_elimination" ∨ ("main" : String) = "winners") := by
        simp [hf]
      simp [getRoundName, this, hf]
  · by_cases hf : f = "single_elimination"
    · simp [getRoundName, depthRoundName, hshl, hf]
    · have : ¬(f = "single_elimination" ∨ ("losers" : String) = "winners") := by
        simp [hf]
      simp [getRoundName, this, hf]

/-- C2 witness: the amended round-naming theorem applied at the concrete
round 4 of a round-robin event. -/
theorem claim_C2_witness :
    (1 : Int) ≤ 4 ∧ (4 : Int) ≤ 62 ∧
      (getRoundName 4 "winners" "round_robin" = depthRoundName 4 ∧
       getRoundName 4 "main" "round_robin" =
         (if ("round_robin" : String) = "single_elimination" then depthRoundName 4
          else s!"Round {(4 : Int)}") ∧
       getRoundName 4 "losers" "round_robin" =
         (if ("round_robin" : String) = "single_elimination" then depthRoundName 4
          else s!"Losers Round {(4 : Int)}")) :=
  ⟨by norm_num, by norm_num,
    claim_C2_round_naming_amended 4 "round_robin" (by norm_num) (by norm_num)⟩

/-- C8: bracket-side classification.  Under the `double_elimination`
format, `getBracket` classifies a negative round as the losers bracket
and a non-negative round as the winners bracket, grouping under the
bracket-local round number `|round|` (the source's `abs`); under every
other format the game is classified `"main"`.  The standalone
`getBracketTypeFromRound` (used by `get_round`) implements the same
sign rule. -/
theorem claim_C8_bracket_side (r : Int) (f : String) :
    (bracketTypeOf "double_elimination" r = if r < 0 then "losers" else "winners") ∧
    goAbs r = |r| ∧
    (f ≠ "double_elimination" → bracketTypeOf f r = "main") ∧
    getBracketTypeFromRound r = (if r < 0 then "losers" else "winners") := by
  refine ⟨by simp [bracketTypeOf], ?_, ?_, by simp [getBracketTypeFromRound]⟩
  · by_cases h : r < 0
    · simp [goAbs, h, abs_of_neg h]
    · simp [goAbs, h, abs_of_nonneg (by omega : (0 : Int) ≤ r)]
  · intro hf
    simp [bracketTypeOf, hf]

/-- C8 witness: classification at round −3 under double elimination and
under round robin. -/
theorem claim_C8_witness :
    bracketTypeOf "round_robin" (-3) = "main" ∧
    bracketTypeOf "double_elimination" (-3) = "losers" ∧
    goAbs (-3) = 3 :=
  ⟨(claim_C8_bracket_side (-3) "round_robin").2.2.1 (by decide),
   by simpa using (claim_C8_bracket_side (-3) "round_robin").1,
   by simpa using (claim_C8_bracket_side (-3) "round_robin").2.1⟩

/-! ## Standings comparator (`getBracketStandings`, lines 344‑367) -/

/-- The three fields the standings comparator reads from a standing
record. -/
structure SRec where
  placement : Option Int
  wins : Int
  losses : Int

/-- The standings comparator of `getBracketStandings` on the placement /
wins / losses view, translated branch by branch from the Go `less`
closure: both placements nil → wins descending then losses ascending;
a nil placement sorts after a non-nil one; otherwise ascending numeric
placement. -/
def sRecLess (x y : SRec) : Bool :=
  match x.placement, y.placement with
  | none, none =>
    if x.wins ≠ y.wins then x.wins > y.wins else x.losses < y.losses
  | none, some _ => false
  | some _, none => true
  | some px, some py => px < py

/-- `isNull v` iff the Go interface value compares equal to `nil`
(missing key or stored JSON null). -/
def isNull (v : JVal) : Bool :=
  match v with
  | .null => true
  | _ => false

/-- The standings comparator exactly as written, on raw standing
records, with the panic made explicit: the Go code asserts
`.(float64)` on wins/losses (when both placements are nil) and on the
placements themselves *without* the comma-ok form, so a malformed record
panics — modelled by `none`. -/
def standingsLess? (a b : Obj) : Option Bool :=
  let placeI := a.getV "placement"
  let placeJ := b.getV "placement"
  if isNull placeI && isNull placeJ then
    match asNum? (a.getV "wins"), asNum? (b.getV "wins") with
    | some winsI, some winsJ =>
      if winsI ≠ winsJ then some (winsI > winsJ)
      else
        match asNum? (a.getV "losses"), asNum? (b.getV "losses") with
        | some lossesI, some lossesJ => some (lossesI < lossesJ)
        | _, _ => none
    | _, _ => none
  else if isNull placeI then some false
  else if isNull placeJ then some true
  else
    match asNum? placeI, asNum? placeJ with
    | some pI, some pJ => some (pI < pJ)
    | _, _ => none

/-- The placement/wins/losses view of a standing record.  For
well-formed records (placement nil or numeric; wins/losses numeric when
both placements are nil) this agrees with what the Go comparator reads;
on malformed records the Go comparator panics (see `standingsLess?`,
claim C4) and the defaults here are immaterial. -/
def parseStanding (o : Obj) : SRec :=
  { placement :=
      match o.getV "placement" with
      | .null => none
      | .num n => some n
      | _ => some 0
    wins := match o.getV "wins" with | .num n => n | _ => 0
    losses := match o.getV "losses" with | .num n => n | _ => 0 }

/-- Total (never-panicking) version of the standings comparator, used to
model the call to `sort.Slice`; coincides with `standingsLess?` on
well-formed records (`standingsLess?_eq_parsed`). -/
def standingsLessD (a b : Obj) : Bool :=
  sRecLess (parseStanding a) (parseStanding b)

/-- A standing record is well-formed when its placement is nil or
numeric, and — if nil — its wins and losses are numeric, which is what
the comparator needs to run without panicking. -/
def wfStandingB (o : Obj) : Bool :=
  match o.getV "placement" with
  | .null =>
    (match o.getV "wins" with | .num _ => true | _ => false) &&
    (match o.getV "losses" with | .num _ => true | _ => false)
  | .num _ => true
  | _ => false

/-- On well-formed records the exact comparator does not panic and
agrees with the totalised comparator used for the sort model. -/
theorem standingsLess?_eq_parsed {a b : Obj}
    (ha : wfStandingB a = true) (hb : wfStandingB b = true) :
    standingsLess? a b = some (standingsLessD a b) := by
  unfold wfStandingB at ha hb
  unfold standingsLess? standingsLessD sRecLess parseStanding
  rcases hpa : a.getV "placement" with _ | _ | pa | _ | _ | _ <;> rw [hpa] at ha <;>
    rcases hpb : b.getV "placement" with _ | _ | pb | _ | _ | _ <;> rw [hpb] at hb <;>
      simp_all [isNull, asNum?]
  · rcases hwa : a.getV "wins" with _ | _ | wa | _ | _ | _ <;> rw [hwa] at ha <;>
      rcases hwb : b.getV "wins" with _ | _ | wb | _ | _ | _ <;> rw [hwb] at hb <;>
        simp_all
    rcases hla : a.getV "losses" with _ | _ | la | _ | _ | _ <;> rw [hla] at ha <;>
      rcases hlb : b.getV "losses" with _ | _ | lb | _ | _ | _ <;> rw [hlb] at hb <;>
        simp_all
    split <;> rfl

/-- C7: the standings comparator is transitive as a total preorder:
`A ⟨= B` meaning «A precedes or equals B», i.e. the comparator never
orders B strictly before A, is transitive for arbitrary combinations of
nil/non-nil placements and arbitrary wins/losses. -/
theorem claim_C7_standings_comparator_transitive (A B C : SRec)
    (h1 : sRecLess B A = false) (h2 : sRecLess C B = false) :
    sRecLess C A = false := by
  obtain ⟨pa, wa, la⟩ := A
  obtain ⟨pb, wb, lb⟩ := B
  obtain ⟨pc, wc, lc⟩ := C
  rcases pa with _ | pa <;> rcases pb with _ | pb <;> rcases pc with _ | pc <;>
    simp_all [sRecLess] <;> first
      | omega
      | (split_ifs at * <;> try simp_all) <;> omega

/-- C7 witness: transitivity applied to a placed champion, a placed
runner-up, and an unplaced 5–1 record. -/
theorem claim_C7_witness :
    sRecLess ⟨some 2, 0, 0⟩ ⟨some 1, 0, 0⟩ = false ∧
    sRecLess ⟨none, 5, 1⟩ ⟨some 2, 0, 0⟩ = false ∧
    sRecLess ⟨none, 5, 1⟩ ⟨some 1, 0, 0⟩ = false :=
  ⟨by decide, by decide,
    claim_C7_standings_comparator_transitive ⟨some 1, 0, 0⟩ ⟨some 2, 0, 0⟩ ⟨none, 5, 1⟩
      (by decide) (by decide)⟩

/-! ## Cross-service annotator (`enrichPlayerWithNHRLStats`,
`enrichPlayerDataWithProfileDetails`) -/

/-- One record of `getNHRLFights`, reduced to the only field the
annotator reads (`Date`). -/
structure NHRLFight where
  date : String

/-- The streak fields the annotator reads from `getNHRLStreakStats`. -/
structure NHRLStreak where
  currentStreak : Int
  currentStreakType : String

/-- The statistics service, as the annotator observes it.  For the rank
and streak lookups, `none` covers both a transport/parse error and the
service answering `null` (`err == nil && result != nil` fails either
way).  For the fight history, `none` is an error; `some []` a successful
empty history (the source skips the annotation in both cases). -/
structure NHRLEnv where
  botRank : String → Option Int
  fights : String → Option (List NHRLFight)
  streakStats : String → Option NHRLStreak

/-- The bot-name extraction at the top of `enrichPlayerWithNHRLStats`
(`tools_nhrl.go`, lines 874‑882): prefer `name`, then `displayName`,
then `tag`; a record with none of them as a string yields `""` (note an
*empty* `name` string also wins the first branch and yields `""`). -/
def botNameOf (player : Obj) : String :=
  match asStr? (player.getV "name") with
  | some s => s
  | none =>
    match asStr? (player.getV "displayName") with
    | some s => s
    | none =>
      match asStr? (player.getV "tag") with
      | some s => s
      | none => ""

/-- The `bot_picture` object the annotator always attaches when a bot
name was derivable (`tools_nhrl.go`, lines 908‑913). -/
def botPictureObj (botName : String) : JVal :=
  let formattedBotName := botName.replace " " "_"
  .obj
    [("thumbnail_url",
       .str ("https://brettzone.nhrl.io/brettZone/getBotPic.php?bot=" ++ formattedBotName ++ "&thumb")),
     ("full_size_url",
       .str ("https://brettzone.nhrl.io/brettZone/getBotPic.php?bot=" ++ formattedBotName))]

/-- `enrichPlayerWithNHRLStats` (`tools_nhrl.go`, lines 868‑917):
copy the record, then — if a bot name is derivable — add rank, recent
fights, streak annotations for the lookups that succeed, and always the
bot-picture URLs. -/
def enrichPlayerWithNHRLStats (env : NHRLEnv) (player : Obj) : Obj :=
  let enrichedPlayer := player
  let botName := botNameOf player
  if botName = "" then enrichedPlayer else
  let e :=
    match env.botRank botName with
    | some ranking => enrichedPlayer.set "nhrl_rank" (.num ranking)
    | none => enrichedPlayer
  let e :=
    match env.fights botName with
    | some fights =>
      if fights.length > 0 then
        let recentFights := fights.take 5
        (e.set "nhrl_recent_fights" (.num recentFights.length)).set
          "nhrl_last_fight_date" (.str (recentFights.headD ⟨""⟩).date)
      else e
    | none => e
  let e :=
    match env.streakStats botName with
    | some st =>
      e.set "nhrl_current_streak"
        (.obj [("length", .num st.currentStreak), ("type", .str st.currentStreakType)])
    | none => e
  e.set "bot_picture" (botPictureObj botName)

/-- All three statistics lookups fail (or answer "not found") for the
given name. -/
def allLookupsFail (env : NHRLEnv) (name : String) : Prop :=
  env.botRank name = none ∧
  (env.fights name = none ∨ env.fights name = some []) ∧
  env.streakStats name = none

/-- A statistics service for which every lookup fails. -/
def failEnv : NHRLEnv :=
  { botRank := fun _ => none
    fights := fun _ => none
    streakStats := fun _ => none }

/-- C6 counterexample.  The claim says that when every statistics lookup
fails, the enrichment "returns the record with no annotation keys added
— the output equals the input record".  But the `bot_picture` URLs are
attached unconditionally whenever a bot name is derivable, so for a
player named "Hydra" the output has an extra `bot_picture` key and does
not equal the input. -/
theorem claim_C6_counterexample :
    enrichPlayerWithNHRLStats failEnv [("name", .str "Hydra")] =
      [("name", .str "Hydra"), ("bot_picture", botPictureObj "Hydra")] ∧
    enrichPlayerWithNHRLStats failEnv [("name", .str "Hydra")] ≠
      [("name", .str "Hydra")] := by
  refine ⟨rfl, fun h => ?_⟩
  rw [show enrichPlayerWithNHRLStats failEnv [("name", .str "Hydra")] =
      [("name", .str "Hydra"), ("bot_picture", botPictureObj "Hydra")] from rfl] at h
  have := congrArg List.length h
  simp at this

/-- C6 (amended): when every statistics lookup for a participant fails
or answers "not found", none of the statistics annotations
(`nhrl_rank`, `nhrl_recent_fights`, `nhrl_last_fight_date`,
`nhrl_current_streak`) is added and no error is raised, but the
`bot_picture` key **is** still added whenever a bot name is derivable
from the record; only a record with no derivable bot name comes back
equal to the input. -/
theorem claim_C6_failed_lookups_add_only_bot_picture (env : NHRLEnv) (player : Obj)
    (h : allLookupsFail env (botNameOf player)) :
    enrichPlayerWithNHRLStats env player =
      (if botNameOf player = "" then player
       else player.set "bot_picture" (botPictureObj (botNameOf player))) := by
  obtain ⟨hrank, hfights, hstreak⟩ := h
  unfold enrichPlayerWithNHRLStats
  by_cases hb : botNameOf player = ""
  · simp [hb]
  · rw [if_neg hb, if_neg hb, hrank, hstreak]
    rcases hfights with hf | hf <;> simp [hf]

/-- C6 witness: the amended theorem applied to the "Hydra" record under
the all-failing service. -/
theorem claim_C6_witness :
    allLookupsFail failEnv (botNameOf [("name", .str "Hydra")]) ∧
    enrichPlayerWithNHRLStats failEnv [("name", .str "Hydra")] =
      (if botNameOf [("name", .str "Hydra")] = "" then ([("name", .str "Hydra")] : Obj)
       else Obj.set [("name", .str "Hydra")] "bot_picture"
         (botPictureObj (botNameOf [("name", .str "Hydra")]))) :=
  ⟨⟨rfl, Or.inl rfl, rfl⟩,
   claim_C6_failed_lookups_add_only_bot_picture failEnv [("name", .str "Hydra")]
     ⟨rfl, Or.inl rfl, rfl⟩⟩

theorem Obj.get?_set_self (o : Obj) (k : String) (v : JVal) :
    (o.set k v).get? k = some v := by
  induction o with
  | nil => simp [Obj.set, Obj.get?]
  | cons hd tl ih =>
    obtain ⟨a, b⟩ := hd
    by_cases hak : a = k <;> simp [Obj.set, Obj.get?, hak, ih]

theorem Obj.get?_set_ne (o : Obj) {k k' : String} (v : JVal) (h : k ≠ k') :
    (o.set k v).get? k' = o.get? k' := by
  induction o with
  | nil => simp [Obj.set, Obj.get?, h]
  | cons hd tl ih =>
    obtain ⟨a, b⟩ := hd
    by_cases hak : a = k
    · subst hak
      simp [Obj.set, Obj.get?, h]
    · simp [Obj.set, Obj.get?, hak, ih]

theorem Obj.getV_set_self (o : Obj) (k : String) (v : JVal) :
    (o.set k v).getV k = v := by
  simp [Obj.getV, Obj.get?_set_self]

theorem Obj.getV_set_ne (o : Obj) {k k' : String} (v : JVal) (h : k ≠ k') :
    (o.set k v).getV k' = o.getV k' := by
  simp [Obj.getV, Obj.get?_set_ne o v h]

/-- One `if x, ok := profileInfo[f].(string); ok && x != "" { player[f] = x }`
block of `enrichPlayerDataWithProfileDetails` (`api.go`): each of the
four profile fields is copied into the player map itself when present
as a non-empty string. -/
def writeProfileStr (dst : Obj) (profileInfo : Obj) (field : String) : Obj :=
  match asStr? (Obj.getV profileInfo field) with
  | some s => if s ≠ "" then dst.set field (.str s) else dst
  | none => dst

/-- The `profileInfo` block of `enrichPlayerDataWithProfileDetails`
(`api.go`, lines 450‑467): copy `tag`, `pronouns`, `twitchHandle`,
`twitterHandle` out of `profileInfo` into the player map itself when
each is present as a non-empty string.  These are in-place writes to the
caller's map. -/
def applyProfileInfo (player : Obj) : Obj :=
  match player.getV "profileInfo" with
  | .obj profileInfo =>
    writeProfileStr
      (writeProfileStr
        (writeProfileStr
          (writeProfileStr player profileInfo "tag")
          profileInfo "pronouns")
        profileInfo "twitchHandle")
      profileInfo "twitterHandle"
  | _ => player

/-- `enrichPlayerDataWithProfileDetails` (`api.go`, lines 449‑480).  The
Go function mutates the map it was handed (profile fields, then always
`displayName`) and then returns the result of
`enrichPlayerWithNHRLStats`, which is a *copy*.  The embedding returns
the pair (final state of the caller's map, returned map). -/
def enrichPlayerDataWithProfileDetails (env : NHRLEnv) (player : Obj) : Obj × Obj :=
  let p := applyProfileInfo player
  let p :=
    match asStr? (p.getV "tag") with
    | some tag =>
      if tag ≠ "" then p.set "displayName" (.str tag)
      else p.set "displayName" (p.getV "name")
    | none => p.set "displayName" (p.getV "name")
  (p, enrichPlayerWithNHRLStats env p)

/-- The non-empty string at the given key of a `profileInfo` object,
if any — the condition under which `writeProfileStr` writes. -/
def profileStr? (profileInfo : Obj) (field : String) : Option String :=
  match asStr? (Obj.getV profileInfo field) with
  | some s => if s ≠ "" then some s else none
  | none => none

/-- The non-empty string at the given key of the player's `profileInfo`
object, if any — the condition under which `applyProfileInfo` writes
that key. -/
def profileStrField (player : Obj) (field : String) : Option String :=
  match player.getV "profileInfo" with
  | .obj profileInfo => profileStr? profileInfo field
  | _ => none

theorem writeProfileStr_get?_ne (dst profileInfo : Obj) {field k : String}
    (h : field ≠ k) :
    (writeProfileStr dst profileInfo field).get? k = dst.get? k := by
  unfold writeProfileStr
  rcases asStr? (Obj.getV profileInfo field) with _ | s
  · rfl
  · by_cases hs : s = "" <;> simp [hs, Obj.get?_set_ne dst _ h]

theorem writeProfileStr_getV_ne (dst profileInfo : Obj) {field k : String}
    (h : field ≠ k) :
    (writeProfileStr dst profileInfo field).getV k = dst.getV k := by
  simp [Obj.getV, writeProfileStr_get?_ne dst profileInfo h]

theorem writeProfileStr_getV_self (dst profileInfo : Obj) (field : String) :
    (writeProfileStr dst profileInfo field).getV field =
      (match profileStr? profileInfo field with
       | some s => .str s
       | none => dst.getV field) := by
  unfold writeProfileStr profileStr?
  rcases asStr? (Obj.getV profileInfo field) with _ | s
  · rfl
  · by_cases hs : s = "" <;> simp [hs, Obj.getV_set_self]

/-- `applyProfileInfo` leaves every key other than the four profile
fields untouched. -/
theorem applyProfileInfo_get?_untouched (player : Obj) {k : String}
    (h1 : k ≠ "tag") (h2 : k ≠ "pronouns") (h3 : k ≠ "twitchHandle")
    (h4 : k ≠ "twitterHandle") :
    (applyProfileInfo player).get? k = player.get? k := by
  unfold applyProfileInfo
  rcases player.getV "profileInfo" with _ | _ | _ | _ | _ | pi
  case obj =>
    rw [writeProfileStr_get?_ne _ _ (Ne.symm h4),
        writeProfileStr_get?_ne _ _ (Ne.symm h3),
        writeProfileStr_get?_ne _ _ (Ne.symm h2),
        writeProfileStr_get?_ne _ _ (Ne.symm h1)]
  all_goals rfl

/-- The `tag` the caller's map holds after the profile block: the
non-empty profile tag if there was one, else the original value. -/
theorem applyProfileInfo_getV_tag (player : Obj) :
    (applyProfileInfo player).getV "tag" =
      (match profileStrField player "tag" with
       | some t => .str t
       | none => player.getV "tag") := by
  unfold applyProfileInfo profileStrField
  rcases player.getV "profileInfo" with _ | _ | _ | _ | _ | pi
  case obj =>
    rw [writeProfileStr_getV_ne _ _ (by decide),
        writeProfileStr_getV_ne _ _ (by decide),
        writeProfileStr_getV_ne _ _ (by decide),
        writeProfileStr_getV_self]
  all_goals rfl

/-- The tag that ends up governing `displayName`: a non-empty profile
tag if present, else a pre-existing non-empty string `tag` field. -/
def effectiveTag (player : Obj) : Option String :=
  match profileStrField player "tag" with
  | some t => some t
  | none =>
    match asStr? (player.getV "tag") with
    | some t => if t ≠ "" then some t else none
    | none => none

/-- What the enrichment writes into the caller's `displayName`. -/
def expectedDisplayName (player : Obj) : JVal :=
  match effectiveTag player with
  | some t => .str t
  | none => player.getV "name"

theorem profileStrField_ne_empty {player : Obj} {field t : String}
    (h : profileStrField player field = some t) : t ≠ "" := by
  unfold profileStrField profileStr? at h
  rcases hpi : player.getV "profileInfo" with _ | _ | _ | _ | _ | pi <;> rw [hpi] at h <;>
    simp only [] at h
  case obj =>
    rcases hs : asStr? (Obj.getV pi field) with _ | s <;> rw [hs] at h <;>
      simp only [] at h
    · exact absurd h (by simp)
    · by_cases he : s = ""
      · simp [he] at h
      · simp [he] at h
        exact h ▸ he
  all_goals exact absurd h (by simp)

theorem applyProfileInfo_getV_untouched (player : Obj) {k : String}
    (h1 : k ≠ "tag") (h2 : k ≠ "pronouns") (h3 : k ≠ "twitchHandle")
    (h4 : k ≠ "twitterHandle") :
    (applyProfileInfo player).getV k = player.getV k := by
  simp [Obj.getV, applyProfileInfo_get?_untouched player h1 h2 h3 h4]

/-- The caller's map, after `enrichPlayerDataWithProfileDetails` ran, is
the profile-written map with `displayName` overwritten by the effective
tag (falling back to the `name` value). -/
theorem enrichPlayerDataWithProfileDetails_fst (env : NHRLEnv) (player : Obj) :
    (enrichPlayerDataWithProfileDetails env player).1 =
      (applyProfileInfo player).set "displayName" (expectedDisplayName player) := by
  unfold enrichPlayerDataWithProfileDetails expectedDisplayName effectiveTag
  dsimp only
  have htag := applyProfileInfo_getV_tag player
  have hname : (applyProfileInfo player).getV "name" = player.getV "name" :=
    applyProfileInfo_getV_untouched player (by decide) (by decide) (by decide) (by decide)
  rcases hps : profileStrField player "tag" with _ | t
  · rw [hps] at htag
    dsimp only at htag
    rw [htag, hname]
    dsimp only
    rcases player.getV "tag" with _ | _ | _ | s | _ | _ <;> simp [asStr?]
    by_cases hs : s = "" <;> simp [hs]
  · have ht : t ≠ "" := profileStrField_ne_empty hps
    rw [hps] at htag
    dsimp only at htag
    rw [htag]
    dsimp only
    simp [asStr?, ht]

theorem applyProfileInfo_getV_pronouns (player : Obj) :
    (applyProfileInfo player).getV "pronouns" =
      (match profileStrField player "pronouns" with
       | some s => .str s
       | none => player.getV "pronouns") := by
  unfold applyProfileInfo profileStrField
  rcases player.getV "profileInfo" with _ | _ | _ | _ | _ | pi
  case obj =>
    dsimp only
    rw [writeProfileStr_getV_ne _ _ (by decide),
        writeProfileStr_getV_ne _ _ (by decide),
        writeProfileStr_getV_self]
    rcases h : profileStr? pi "pronouns" with _ | s
    · dsimp only
      exact writeProfileStr_getV_ne player pi (show ("tag" : String) ≠ "pronouns" by decide)
    · rfl
  all_goals rfl

theorem applyProfileInfo_getV_twitchHandle (player : Obj) :
    (applyProfileInfo player).getV "twitchHandle" =
      (match profileStrField player "twitchHandle" with
       | some s => .str s
       | none => player.getV "twitchHandle") := by
  unfold applyProfileInfo profileStrField
  rcases player.getV "profileInfo" with _ | _ | _ | _ | _ | pi
  case obj =>
    dsimp only
    rw [writeProfileStr_getV_ne _ _ (by decide), writeProfileStr_getV_self]
    rcases h : profileStr? pi "twitchHandle" with _ | s
    · dsimp only
      rw [writeProfileStr_getV_ne _ _ (show ("pronouns" : String) ≠ "twitchHandle" by decide)]
      exact writeProfileStr_getV_ne player pi (show ("tag" : String) ≠ "twitchHandle" by decide)
    · rfl
  all_goals rfl

theorem applyProfileInfo_getV_twitterHandle (player : Obj) :
    (applyProfileInfo player).getV "twitterHandle" =
      (match profileStrField player "twitterHandle" with
       | some s => .str s
       | none => player.getV "twitterHandle") := by
  unfold applyProfileInfo profileStrField
  rcases player.getV "profileInfo" with _ | _ | _ | _ | _ | pi
  case obj =>
    dsimp only
    rw [writeProfileStr_getV_self]
    rcases h : profileStr? pi "twitterHandle" with _ | s
    · dsimp only
      rw [writeProfileStr_getV_ne _ _ (show ("twitchHandle" : String) ≠ "twitterHandle" by decide),
          writeProfileStr_getV_ne _ _ (show ("pronouns" : String) ≠ "twitterHandle" by decide)]
      exact writeProfileStr_getV_ne player pi (show ("tag" : String) ≠ "twitterHandle" by decide)
    · rfl
  all_goals rfl

/-- C10 counterexample.  The claim says the function "returns the very
map it was given" after writing `tag`, `pronouns`, `twitchHandle`,
`twitterHandle`, and `displayName` into it.  For the record
`{name: "Hydra"}` (no profile info) the caller's map ends up as
`{name, displayName}` — no `tag`/`pronouns`/… keys are written — while
the *returned* map is the copy made by the NHRL-stats step, which
additionally carries `bot_picture`; the returned map is therefore not
the (state of the) map that was passed in. -/
theorem claim_C10_counterexample :
    (enrichPlayerDataWithProfileDetails failEnv [("name", .str "Hydra")]).1 =
      [("name", .str "Hydra"), ("displayName", .str "Hydra")] ∧
    (enrichPlayerDataWithProfileDetails failEnv [("name", .str "Hydra")]).2 =
      [("name", .str "Hydra"), ("displayName", .str "Hydra"),
       ("bot_picture", botPictureObj "Hydra")] ∧
    (enrichPlayerDataWithProfileDetails failEnv [("name", .str "Hydra")]).2 ≠
      (enrichPlayerDataWithProfileDetails failEnv [("name", .str "Hydra")]).1 ∧
    (enrichPlayerDataWithProfileDetails failEnv [("name", .str "Hydra")]).1.get? "tag" =
      none := by
  refine ⟨rfl, rfl, fun h => ?_, rfl⟩
  rw [show (enrichPlayerDataWithProfileDetails failEnv [("name", .str "Hydra")]).2 =
        [("name", .str "Hydra"), ("displayName", .str "Hydra"),
         ("bot_picture", botPictureObj "Hydra")] from rfl,
      show (enrichPlayerDataWithProfileDetails failEnv [("name", .str "Hydra")]).1 =
        [("name", .str "Hydra"), ("displayName", .str "Hydra")] from rfl] at h
  have := congrArg List.length h
  simp at this

/-- C10 (amended): `enrichPlayerDataWithProfileDetails` does mutate the
map it was given — it writes each of `tag`, `pronouns`,
`twitchHandle`, `twitterHandle` into the caller's map when that field is
a non-empty string of `profileInfo` (overwriting any pre-existing
value, and leaving the key alone otherwise), always writes
`displayName` (the effective tag, else the `name` value), and touches
no other key — but its *return value* is not that map: it is the copy
produced by the NHRL-stats step applied to the mutated record. -/
theorem claim_C10_mutation_amended (env : NHRLEnv) (player : Obj) :
    (enrichPlayerDataWithProfileDetails env player).2 =
      enrichPlayerWithNHRLStats env (enrichPlayerDataWithProfileDetails env player).1 ∧
    (enrichPlayerDataWithProfileDetails env player).1.getV "displayName" =
      expectedDisplayName player ∧
    (enrichPlayerDataWithProfileDetails env player).1.getV "tag" =
      (match profileStrField player "tag" with
       | some s => .str s
       | none => player.getV "tag") ∧
    (enrichPlayerDataWithProfileDetails env player).1.getV "pronouns" =
      (match profileStrField player "pronouns" with
       | some s => .str s
       | none => player.getV "pronouns") ∧
    (enrichPlayerDataWithProfileDetails env player).1.getV "twitchHandle" =
      (match profileStrField player "twitchHandle" with
       | some s => .str s
       | none => player.getV "twitchHandle") ∧
    (enrichPlayerDataWithProfileDetails env player).1.getV "twitterHandle" =
      (match profileStrField player "twitterHandle" with
       | some s => .str s
       | none => player.getV "twitterHandle") ∧
    ∀ k, k ≠ "tag" → k ≠ "pronouns" → k ≠ "twitchHandle" → k ≠ "twitterHandle" →
      k ≠ "displayName" →
      (enrichPlayerDataWithProfileDetails env player).1.get? k = player.get? k := by
  refine ⟨rfl, ?_, ?_, ?_, ?_, ?_, ?_⟩
  · rw [enrichPlayerDataWithProfileDetails_fst]
    exact Obj.getV_set_self _ _ _
  · rw [enrichPlayerDataWithProfileDetails_fst, Obj.getV_set_ne _ _ (by decide)]
    exact applyProfileInfo_getV_tag player
  · rw [enrichPlayerDataWithProfileDetails_fst, Obj.getV_set_ne _ _ (by decide)]
    exact applyProfileInfo_getV_pronouns player
  · rw [enrichPlayerDataWithProfileDetails_fst, Obj.getV_set_ne _ _ (by decide)]
    exact applyProfileInfo_getV_twitchHandle player
  · rw [enrichPlayerDataWithProfileDetails_fst, Obj.getV_set_ne _ _ (by decide)]
    exact applyProfileInfo_getV_twitterHandle player
  · intro k h1 h2 h3 h4 h5
    rw [enrichPlayerDataWithProfileDetails_fst, Obj.get?_set_ne _ _ (Ne.symm h5)]
    exact applyProfileInfo_get?_untouched player h1 h2 h3 h4

/-- C10 witness: the amended mutation theorem applied to the concrete
record `{name: "Hydra"}` under the all-failing statistics service,
reading back `displayName` (written into the caller's map) and `name`
(untouched). -/
theorem claim_C10_witness :
    (enrichPlayerDataWithProfileDetails failEnv [("name", .str "Hydra")]).1.getV
        "displayName" = expectedDisplayName [("name", .str "Hydra")] ∧
    (enrichPlayerDataWithProfileDetails failEnv [("name", .str "Hydra")]).1.get?
        "name" = some (.str "Hydra") :=
  ⟨(claim_C10_mutation_amended failEnv [("name", .str "Hydra")]).2.1,
   by
    rw [(claim_C10_mutation_amended failEnv [("name", .str "Hydra")]).2.2.2.2.2.2
      "name" (by decide) (by decide) (by decide) (by decide) (by decide)]
    rfl⟩

/-! ## Game enrichment for the bracket (`enrichGameForBracket`) and
champion detection (`getChampions`) -/

/-- `playerID → enriched player` lookup map built by `getBracket` /
`getBracketRound`.  The claims quantify over an arbitrary map. -/
abbrev PlayerMap := List (String × Obj)

/-- One entry of the enriched `slots` array (`part_006`, lines 407‑436):
a raw slot that is an object becomes a map with `slotIdx` / `score` /
`slotState` copied, plus `playerID` (and the player's name/display
name/seed when the id resolves) and `prevGameID` when present.  A raw
slot that is *not* an object leaves the corresponding entry of
`make([]map[string]interface{}, len)` as the nil map, embedded as the
empty object (reads on a nil Go map yield nil). -/
def enrichSlot (playerMap : PlayerMap) (s : JVal) : Obj :=
  match s with
  | .obj slot =>
    let enrichedSlot : Obj :=
      [("slotIdx", Obj.getV slot "slotIdx"),
       ("score", Obj.getV slot "score"),
       ("slotState", Obj.getV slot "slotState")]
    let enrichedSlot :=
      match asStr? (Obj.getV slot "playerID") with
      | some playerID =>
        let e := enrichedSlot.set "playerID" (.str playerID)
        match playerMap.lookup playerID with
        | some player =>
          let e := (e.set "playerName" (Obj.getV player "name")).set
            "displayName" (Obj.getV player "displayName")
          match Obj.get? player "seed" with
          | some seed => e.set "seed" seed
          | none => e
        | none => e
      | none => enrichedSlot
    match Obj.get? slot "prevGameID" with
    | some prevGameID => enrichedSlot.set "prevGameID" prevGameID
    | none => enrichedSlot
  | _ => []

/-- The defaulted score read `score, _ := slot["score"].(float64)`: a
missing or non-numeric score yields the zero value `0`. -/
def slotScoreRead (o : Obj) : Int :=
  match Obj.getV o "score" with
  | .num n => n
  | _ => 0

/-- The winner determination at the end of `enrichGameForBracket`
(`part_006`, lines 453‑464), given the already-enriched slots: with at
least two slots, compare the two scores (a missing or non-numeric score
reads as `0`, the zero value of Go's failed `.(float64)` assertion) and
pick the strictly greater one. -/
def winnerIdxFromSlots (eslots : List Obj) : Option Nat :=
  if 2 ≤ eslots.length then
    let score1 := slotScoreRead (eslots[0]?.getD [])
    let score2 := slotScoreRead (eslots[1]?.getD [])
    if score1 > score2 then some 0
    else if score2 > score1 then some 1
    else none
  else none

/-- The enriched game map built by `enrichGameForBracket` (`part_006`,
lines 387‑467), as a structure: keys the function always sets are plain
`JVal` fields (the copied value, possibly null); keys it sets only
conditionally are `Option` fields (`none` = key absent).
`winnerSlotIdx` is stored by the Go code as an `int` (not a `float64`),
hence the `Option Nat` field. -/
structure EGame where
  id : JVal
  name : JVal
  round : JVal
  bracketID : JVal
  state : JVal
  scoreToWin : JVal
  endTime : Option JVal
  scheduledTime : Option JVal
  slots : Option (List Obj)
  nextGameSlotIDs : Option JVal
  winnerPlacement : Option JVal
  loserPlacement : Option JVal
  winnerSlotIdx : Option Nat

/-- `enrichGameForBracket` (`part_006`, lines 387‑467). -/
def enrichGameForBracket (playerMap : PlayerMap) (game : Obj) : EGame :=
  let eslots : Option (List Obj) :=
    match game.getV "slots" with
    | .arr slots => some (slots.map (enrichSlot playerMap))
    | _ => none
  { id := game.getV "id"
    name := game.getV "name"
    round := game.getV "round"
    bracketID := game.getV "bracketID"
    state := game.getV "state"
    scoreToWin := game.getV "scoreToWin"
    endTime := game.get? "endTime"
    scheduledTime := game.get? "scheduledTime"
    slots := eslots
    nextGameSlotIDs := game.get? "nextGameSlotIDs"
    winnerPlacement := game.get? "winnerPlacement"
    loserPlacement := game.get? "loserPlacement"
    winnerSlotIdx :=
      match asStr? (game.getV "state") with
      | some state =>
        if state = "done" then
          match eslots with
          | some es => winnerIdxFromSlots es
          | none => none
        else none
      | none => none }

/-- The body of the `getChampions` loop (`part_006`, lines 553‑575) for
one enriched game: require `winnerPlacement == 1`, state `done`, a
stored winner slot index within the slots array, a string `playerID` in
the winning slot, and that id resolving in the player map; then build
the champion entry. -/
def championOf (playerMap : PlayerMap) (game : EGame) : Option Obj :=
  match game.winnerPlacement with
  | some wpv =>
    match asNum? wpv with
    | some wp =>
      if wp = 1 then
        match asStr? game.state with
        | some state =>
          if state = "done" then
            match game.winnerSlotIdx with
            | some winnerSlotIdx =>
              match game.slots with
              | some slots =>
                if winnerSlotIdx < slots.length then
                  match asStr? (Obj.getV (slots[winnerSlotIdx]?.getD []) "playerID") with
                  | some playerID =>
                    match playerMap.lookup playerID with
                    | some player =>
                      some [("playerID", .str playerID),
                            ("displayName", Obj.getV player "displayName"),
                            ("name", Obj.getV player "name"),
                            ("gameID", game.id),
                            ("gameName", game.name)]
                    | none => none
                  | none => none
                else none
              | none => none
            | none => none
          else none
        | none => none
      else none
    | none => none
  | none => none

/-- `getChampions` (`part_006`, lines 549‑578): collect the champion
entry of every game that passes all the checks. -/
def getChampions (games : List EGame) (playerMap : PlayerMap) : List Obj :=
  games.filterMap (championOf playerMap)

/-- The raw `playerID` value carried by a raw slot (nil-map read for a
slot that is not an object). -/
def slotRawPid (s : JVal) : JVal :=
  match s with
  | .obj slot => Obj.getV slot "playerID"
  | _ => .null

/-- The raw `score` value carried by a raw slot. -/
def slotRawScore (s : JVal) : JVal :=
  match s with
  | .obj slot => Obj.getV slot "score"
  | _ => .null

/-- The effective score of a raw slot as champion detection sees it: a
slot that is not an object, or whose score is missing or non-numeric,
scores `0`. -/
def effSlotScore (s : JVal) : Int :=
  match slotRawScore s with
  | .num n => n
  | _ => 0

/-- The winning slot index per the amended claim: the slot (among the
first two) whose effective score strictly exceeds the other's; equal
effective scores give no winner. -/
def winningSlotIdx (slots : List JVal) : Option Nat :=
  let s0 := effSlotScore (slots[0]?.getD .null)
  let s1 := effSlotScore (slots[1]?.getD .null)
  if s0 > s1 then some 0
  else if s1 > s0 then some 1
  else none

/-- The string `playerID` of the winning slot, if there is a winning
slot and it carries one. -/
def winningSlotPid (slots : List JVal) : Option String :=
  match winningSlotIdx slots with
  | some i => asStr? (slotRawPid (slots[i]?.getD .null))
  | none => none

/-- The string `playerID` of the winning slot of a raw game. -/
def winnerPidOfGame (g : Obj) : Option String :=
  match g.getV "slots" with
  | .arr slots => winningSlotPid slots
  | _ => none

/-- The conditions under which a raw game contributes a champion
(amended claim): `winnerPlacement` present and equal to 1, state
`"done"`, a slots array of length ≥ 2, a winning slot [strictly
greater effective score, missing scores reading as 0], that slot
carrying a string `playerID`, and that id resolving in the player
map. -/
def champEligible (playerMap : PlayerMap) (g : Obj) : Prop :=
  g.getV "winnerPlacement" = .num 1 ∧
  g.getV "state" = .str "done" ∧
  ∃ slots, g.getV "slots" = .arr slots ∧ 2 ≤ slots.length ∧
    ∃ pid, winningSlotPid slots = some pid ∧ (playerMap.lookup pid).isSome = true

theorem enrichSlot_getV_score (pm : PlayerMap) (s : JVal) :
    Obj.getV (enrichSlot pm s) "score" = slotRawScore s := by
  rcases s with _ | _ | _ | _ | _ | slot
  case obj =>
    unfold enrichSlot slotRawScore
    dsimp only
    rcases asStr? (Obj.getV slot "playerID") with _ | pid <;> dsimp only
    · rcases Obj.get? slot "prevGameID" with _ | pg <;>
        simp [Obj.getV_set_ne, Obj.getV, Obj.get?]
    · rcases pml : pm.lookup pid with _ | player <;> dsimp only <;>
        [skip; rcases Obj.get? player "seed" with _ | seed] <;>
        rcases Obj.get? slot "prevGameID" with _ | pg <;>
        simp [Obj.getV_set_ne, Obj.getV, Obj.get?]
  all_goals rfl

theorem enrichSlot_pid (pm : PlayerMap) (s : JVal) :
    asStr? (Obj.getV (enrichSlot pm s) "playerID") = asStr? (slotRawPid s) := by
  rcases s with _ | _ | _ | _ | _ | slot
  case obj =>
    unfold enrichSlot slotRawPid
    dsimp only
    rcases hp : asStr? (Obj.getV slot "playerID") with _ | pid <;> dsimp only
    · rcases Obj.get? slot "prevGameID" with _ | pg <;>
        simp [hp, asStr?, Obj.getV_set_ne, Obj.getV, Obj.get?]
    · rcases pml : pm.lookup pid with _ | player <;> dsimp only <;>
        [skip; rcases Obj.get? player "seed" with _ | seed] <;>
        rcases Obj.get? slot "prevGameID" with _ | pg <;>
        simp [hp, asStr?, Obj.getV_set_ne, Obj.getV_set_self, Obj.getV, Obj.get?]
  all_goals rfl

theorem slotScoreRead_mapped (pm : PlayerMap) (slots : List JVal) (i : Nat) :
    slotScoreRead ((slots.map (enrichSlot pm))[i]?.getD []) =
      effSlotScore (slots[i]?.getD .null) := by
  rw [List.getElem?_map]
  rcases slots[i]? with _ | s
  · rfl
  · dsimp only [Option.map, Option.getD]
    unfold slotScoreRead effSlotScore
    rw [enrichSlot_getV_score]

theorem slotPid_mapped (pm : PlayerMap) (slots : List JVal) (i : Nat) :
    asStr? (Obj.getV ((slots.map (enrichSlot pm))[i]?.getD []) "playerID") =
      asStr? (slotRawPid (slots[i]?.getD .null)) := by
  rw [List.getElem?_map]
  rcases slots[i]? with _ | s
  · rfl
  · dsimp only [Option.map, Option.getD]
    exact enrichSlot_pid pm s

theorem winnerIdxFromSlots_mapped (pm : PlayerMap) (slots : List JVal) :
    winnerIdxFromSlots (slots.map (enrichSlot pm)) =
      (if 2 ≤ slots.length then winningSlotIdx slots else none) := by
  unfold winnerIdxFromSlots winningSlotIdx
  rw [List.length_map, slotScoreRead_mapped, slotScoreRead_mapped]

theorem winningSlotIdx_le_one {slots : List JVal} {i : Nat}
    (h : winningSlotIdx slots = some i) : i ≤ 1 := by
  unfold winningSlotIdx at h
  dsimp only at h
  split_ifs at h <;> (simp_all; try omega)

/-- Decidable version of `champEligible`. -/
def champEligibleB (pm : PlayerMap) (g : Obj) : Bool :=
  (match g.getV "winnerPlacement" with | .num n => n = 1 | _ => false) &&
  (match g.getV "state" with | .str s => s = "done" | _ => false) &&
  (match g.getV "slots" with
   | .arr slots =>
     decide (2 ≤ slots.length) &&
       (match winningSlotPid slots with
        | some pid => (pm.lookup pid).isSome
        | none => false)
   | _ => false)

/-- The champion entry a qualifying raw game produces: the winning
slot's player id together with the resolved player's display name and
name and the game's id and name.  (Only meaningful when
`champEligibleB` holds.) -/
def champObjOf (pm : PlayerMap) (g : Obj) : Obj :=
  match winnerPidOfGame g with
  | some pid =>
    match pm.lookup pid with
    | some player =>
      [("playerID", .str pid),
       ("displayName", Obj.getV player "displayName"),
       ("name", Obj.getV player "name"),
       ("gameID", g.getV "id"),
       ("gameName", g.getV "name")]
    | none => []
  | none => []

/-- Full characterisation of champion detection through the enrichment
pipeline: a raw game contributes exactly the champion entry of
`champObjOf` iff it passes `champEligibleB`. -/
theorem asStr?_str (s : String) : asStr? (.str s) = some s := rfl

theorem asNum?_num (n : Int) : asNum? (.num n) = some n := rfl

theorem championOf_enrich_eq (pm : PlayerMap) (g : Obj) :
    championOf pm (enrichGameForBracket pm g) =
      (if champEligibleB pm g then some (champObjOf pm g) else none) := by
  unfold championOf enrichGameForBracket champEligibleB champObjOf winnerPidOfGame
  dsimp only
  rcases hwp : g.get? "winnerPlacement" with _ | wpv
  · simp [Obj.getV, hwp]
  · rw [show g.getV "winnerPlacement" = wpv by simp [Obj.getV, hwp]]
    rcases wpv with _ | b | n | s | a | o
    case num =>
      dsimp only
      rw [asNum?_num]
      dsimp only
      by_cases hn : n = 1
      case neg => simp [hn]
      case pos =>
        subst hn
        rw [if_pos rfl, show (decide ((1 : Int) = 1)) = true from by decide,
          Bool.true_and]
        rcases hst : g.get? "state" with _ | stv
        · simp [Obj.getV, hst, asStr?]
        · rw [show g.getV "state" = stv by simp [Obj.getV, hst]]
          rcases stv with _ | b | m | s | a | o
          case str =>
            rw [asStr?_str]
            dsimp only
            by_cases hs : s = "done"
            case neg => simp [hs]
            case pos =>
              subst hs
              rw [if_pos rfl, if_pos rfl,
                show (decide ("done" = "done")) = true from by decide, Bool.true_and]
              rcases hsl : g.getV "slots" with _ | b | m | s | slots | o
              case arr =>
                dsimp only
                rw [winnerIdxFromSlots_mapped]
                by_cases hlen : 2 ≤ slots.length
                · rw [if_pos hlen]
                  rcases hwi : winningSlotIdx slots with _ | i
                  · simp [winningSlotPid, hwi]
                  · have hi1 : i ≤ 1 := winningSlotIdx_le_one hwi
                    have hilt : i < (slots.map (enrichSlot pm)).length := by
                      rw [List.length_map]; omega
                    dsimp only
                    rw [if_pos hilt, slotPid_mapped]
                    unfold winningSlotPid
                    rw [hwi]
                    rcases hpid : asStr? (slotRawPid (slots[i]?.getD .null)) with _ | pid
                    · simp [hpid]
                    · rcases hlk : pm.lookup pid with _ | player <;>
                        simp [hlen, hpid, hlk]
                · rw [if_neg hlen]
                  simp [hlen]
              all_goals simp
          all_goals simp [asStr?]
    all_goals simp [asNum?]

theorem champEligibleB_iff (pm : PlayerMap) (g : Obj) :
    champEligibleB pm g = true ↔ champEligible pm g := by
  unfold champEligibleB champEligible
  rcases g.getV "winnerPlacement" with _ | _ | n | _ | _ | _
  case num =>
    rcases g.getV "state" with _ | _ | _ | s | _ | _
    case str =>
      rcases g.getV "slots" with _ | _ | _ | _ | slots | _
      case arr =>
        rcases hwpid : winningSlotPid slots with _ | pid <;> (simp [hwpid]; try tauto)
      all_goals simp
    all_goals simp
  all_goals simp

theorem champEligibleB_winnerPid (pm : PlayerMap) (g : Obj)
    (h : champEligibleB pm g = true) :
    ∃ pid player, winnerPidOfGame g = some pid ∧ pm.lookup pid = some player := by
  unfold champEligibleB at h
  unfold winnerPidOfGame
  rw [Bool.and_eq_true, Bool.and_eq_true] at h
  obtain ⟨⟨h1, h2⟩, h3⟩ := h
  rcases hsl : g.getV "slots" with _ | _ | _ | _ | slots | _ <;> rw [hsl] at h3
  case arr =>
    rw [Bool.and_eq_true] at h3
    obtain ⟨hlen, hpm⟩ := h3
    rcases hwpid : winningSlotPid slots with _ | pid <;> rw [hwpid] at hpm <;>
      dsimp only at hpm
    · exact absurd hpm (by simp)
    · rcases hlk : pm.lookup pid with _ | player <;> rw [hlk] at hpm
      · exact absurd hpm (by simp)
      · exact ⟨pid, player, hwpid, hlk⟩
  all_goals simp at h3

/-- Player map used by the concrete champion-detection examples. -/
def cexPlayerMap : PlayerMap :=
  [("p1", [("name", .str "Alpha"), ("displayName", .str "Alpha")]),
   ("p2", [("name", .str "Beta"), ("displayName", .str "Beta")])]

/-- A finished championship game (`winnerPlacement` 1, state done) whose
slot 0 has **no score key** and whose slot 1 has score 3. -/
def cexGameMissingScore : Obj :=
  [("id", .str "g1"), ("name", .str "Final"), ("round", .num 1),
   ("state", .str "done"), ("winnerPlacement", .num 1),
   ("slots", .arr [
      .obj [("slotIdx", .num 0), ("playerID", .str "p1")],
      .obj [("slotIdx", .num 1), ("score", .num 3), ("playerID", .str "p2")]])]

/-- A finished championship game, strict 3–1 score, whose winning slot's
`playerID` (`"ghost"`) is not in the player map. -/
def cexGameUnknownWinner : Obj :=
  [("id", .str "g2"), ("name", .str "Final"), ("round", .num 1),
   ("state", .str "done"), ("winnerPlacement", .num 1),
   ("slots", .arr [
      .obj [("slotIdx", .num 0), ("score", .num 3), ("playerID", .str "ghost")],
      .obj [("slotIdx", .num 1), ("score", .num 1), ("playerID", .str "p2")]])]

/-- A fully regular finished championship game: strict 3–1 score and a
known winner (`p1`). -/
def cexGameStrictWin : Obj :=
  [("id", .str "g1"), ("name", .str "Final"), ("round", .num 1),
   ("state", .str "done"), ("winnerPlacement", .num 1),
   ("slots", .arr [
      .obj [("slotIdx", .num 0), ("score", .num 3), ("playerID", .str "p1")],
      .obj [("slotIdx", .num 1), ("score", .num 1), ("playerID", .str "p2")]])]

/-- C1 counterexample.  Two failures of the claim as stated:
(1) a done, `winnerPlacement = 1` game whose slot-0 **score key is
missing** *does* yield a champion — the failed `.(float64)` assertion
reads the missing score as `0`, so slot 1's score 3 is "strictly
higher" and Beta is crowned, where the claim says a missing score
yields no champion; and
(2) a game satisfying every stated condition (done, placement 1, strict
3–1) yields **no** champion when the winning slot's `playerID` does not
resolve in the player map, where the claim says every qualifying game
is returned. -/
theorem claim_C1_counterexample :
    (getChampions [enrichGameForBracket cexPlayerMap cexGameMissingScore]
        cexPlayerMap).length = 1 ∧
    asStr? (Obj.getV ((getChampions [enrichGameForBracket cexPlayerMap cexGameMissingScore]
        cexPlayerMap).headD []) "playerID") = some "p2" ∧
    getChampions [enrichGameForBracket cexPlayerMap cexGameUnknownWinner]
        cexPlayerMap = [] :=
  ⟨rfl, rfl, rfl⟩

/-- C1 (amended): every game of the snapshot is examined independently
(the champions list is the concatenation of the per-game results), and a
game contributes a champion **iff** its `winnerPlacement` is 1, its
state is `"done"`, it has a slots array of length ≥ 2, one of the first
two slots' *effective* scores (a missing or non-numeric score reads as
0) strictly exceeds the other, and the winning slot carries a
`playerID` that resolves in the player map; the contributed entry names
exactly the winning slot's player. -/
theorem claim_C1_champion_detection_amended (pm : PlayerMap) (games : List Obj) (g : Obj) :
    getChampions (games.map (enrichGameForBracket pm)) pm =
      games.filterMap (fun gm => championOf pm (enrichGameForBracket pm gm)) ∧
    ((championOf pm (enrichGameForBracket pm g)).isSome = true ↔ champEligible pm g) ∧
    (∀ c, championOf pm (enrichGameForBracket pm g) = some c →
      asStr? (Obj.getV c "playerID") = winnerPidOfGame g) := by
  refine ⟨?_, ?_, ?_⟩
  · unfold getChampions
    rw [List.filterMap_map]
    rfl
  · rw [championOf_enrich_eq]
    by_cases hel : champEligibleB pm g
    · rw [if_pos hel]
      simp only [Option.isSome_some, true_iff]
      exact (champEligibleB_iff pm g).mp hel
    · rw [if_neg hel]
      exact ⟨fun h => absurd h (by simp),
        fun hc => absurd ((champEligibleB_iff pm g).mpr hc) hel⟩
  · intro c hc
    rw [championOf_enrich_eq] at hc
    by_cases hel : champEligibleB pm g
    · rw [if_pos hel] at hc
      obtain ⟨pid, player, hwpid, hlk⟩ := champEligibleB_winnerPid pm g hel
      have hcc := Option.some.inj hc
      rw [← hcc]
      unfold champObjOf
      rw [hwpid]
      dsimp only
      rw [hlk]
      simp [Obj.getV, Obj.get?, asStr?, hwpid]
    · rw [if_neg hel] at hc
      cases hc

/-- C1 witness: the amended theorem applied to the regular 3–1 game,
whose champion entry names `p1`, the winning slot's player. -/
theorem claim_C1_witness :
    asStr? (Obj.getV [("playerID", JVal.str "p1"), ("displayName", JVal.str "Alpha"),
        ("name", JVal.str "Alpha"), ("gameID", JVal.str "g1"),
        ("gameName", JVal.str "Final")] "playerID") =
      winnerPidOfGame cexGameStrictWin :=
  (claim_C1_champion_detection_amended cexPlayerMap [] cexGameStrictWin).2.2 _ rfl

/-- C9: champion detection silently drops a game whose winning slot's
`playerID` is absent or does not resolve in the player collection, even
when every other championship condition (placement 1, done, strictly
higher score) holds. -/
theorem claim_C9_unknown_winner_dropped (pm : PlayerMap) (g : Obj)
    (h : match winnerPidOfGame g with
         | some pid => pm.lookup pid = none
         | none => True) :
    getChampions [enrichGameForBracket pm g] pm = [] := by
  have hel : champEligibleB pm g = false := by
    cases hcb : champEligibleB pm g
    · rfl
    · obtain ⟨pid, player, hwpid, hlk⟩ := champEligibleB_winnerPid pm g hcb
      rw [hwpid] at h
      have h' : pm.lookup pid = none := h
      rw [h'] at hlk
      cases hlk
  unfold getChampions
  simp [List.filterMap, championOf_enrich_eq, hel]

/-- C9 witness: the ghost-winner game (done, placement 1, strict 3–1,
unknown winning `playerID`) contributes nothing. -/
theorem claim_C9_witness :
    (match winnerPidOfGame cexGameUnknownWinner with
     | some pid => cexPlayerMap.lookup pid = none
     | none => True) ∧
    getChampions [enrichGameForBracket cexPlayerMap cexGameUnknownWinner]
      cexPlayerMap = [] :=
  ⟨rfl, claim_C9_unknown_winner_dropped cexPlayerMap cexGameUnknownWinner rfl⟩

/-! ## Standings (`getBracketStandings`, lines 310‑376) -/

/-- One standing entry (`part_006`, lines 319‑339).  The enrichment call
mutates the participant record in place and returns the NHRL copy; the
standing map reads `id`/`name`/`placement`/… from the (mutated) record
and `displayName` (plus `tag` when present) from the returned copy. -/
def mkStanding (env : NHRLEnv) (player : Obj) : Obj :=
  let r := enrichPlayerDataWithProfileDetails env player
  let standing : Obj :=
    [("playerID", r.1.getV "id"),
     ("displayName", Obj.getV r.2 "displayName"),
     ("name", r.1.getV "name"),
     ("placement", r.1.getV "placement"),
     ("wins", r.1.getV "wins"),
     ("losses", r.1.getV "losses"),
     ("ties", r.1.getV "ties"),
     ("isDisqualified", r.1.getV "isDisqualified"),
     ("seed", r.1.getV "seed")]
  match Obj.get? r.2 "tag" with
  | some tag => standing.set "tag" tag
  | none => standing

/-- The unsorted standings (`part_006`, lines 311‑342): players that are
not objects are skipped, `isBye == true` players are dropped, the rest
become standing entries. -/
def standingsOf (env : NHRLEnv) (players : List JVal) : List Obj :=
  players.filterMap (fun pv =>
    match pv with
    | .obj player =>
      match Obj.getV player "isBye" with
      | .bool true => none
      | _ => some (mkStanding env player)
    | _ => none)

/-- `getBracketStandings`' sort (`part_006`, lines 344‑367).  The call
to Go's `sort.Slice` is modelled by its library contract — a permutation
of the input ordered by the comparator — via `List.mergeSort`; the
comparator is the exact Go comparator with defaulted numeric reads
(`standingsLessD`), which agrees with the panicking original on
well-formed records (`standingsLess?_eq_parsed`; for the panic on
malformed records see claim C4).  `sort.Slice` is *not* stable, but no
property proved here depends on how the sort breaks ties. -/
def getBracketStandingsModel (env : NHRLEnv) (players : List JVal) : List Obj :=
  (standingsOf env players).mergeSort (fun a b => !standingsLessD b a)

/-- `isBye == true` test on a raw participant entry. -/
def isByeTrueB (pv : JVal) : Bool :=
  match pv with
  | .obj player =>
    (match Obj.getV player "isBye" with
     | .bool true => true
     | _ => false)
  | _ => false

/-- The underlying object of a participant entry. -/
def asObjD (pv : JVal) : Obj :=
  match pv with
  | .obj o => o
  | _ => []

/-- A well-formed participant record: an object whose `placement` is
nil or numeric, and — when nil — whose `wins` and `losses` are numeric
(what the standings comparator needs in order not to panic). -/
def wfPlayerB (pv : JVal) : Bool :=
  match pv with
  | .obj player =>
    (match Obj.getV player "placement" with
     | .null =>
       (match Obj.getV player "wins" with | .num _ => true | _ => false) &&
       (match Obj.getV player "losses" with | .num _ => true | _ => false)
     | .num _ => true
     | _ => false)
  | _ => false

/-- The order the claim describes on standing records: non-null
placement first, ascending placement among placed records, and wins
descending / losses ascending among unplaced ones. -/
def claimPrecedes (a b : Obj) : Prop :=
  (∃ pa pb : Int, a.getV "placement" = .num pa ∧ b.getV "placement" = .num pb ∧ pa ≤ pb) ∨
  ((∃ pa : Int, a.getV "placement" = .num pa) ∧ b.getV "placement" = .null) ∨
  (a.getV "placement" = .null ∧ b.getV "placement" = .null ∧
    ∃ wa la wb lb : Int, a.getV "wins" = .num wa ∧ a.getV "losses" = .num la ∧
      b.getV "wins" = .num wb ∧ b.getV "losses" = .num lb ∧
      (wb < wa ∨ (wa = wb ∧ la ≤ lb)))

theorem mkStanding_getV_placement (env : NHRLEnv) (player : Obj) :
    Obj.getV (mkStanding env player) "placement" = Obj.getV player "placement" := by
  unfold mkStanding
  dsimp only
  rcases Obj.get? (enrichPlayerDataWithProfileDetails env player).2 "tag" with _ | tag <;>
    dsimp only <;>
    [skip; rw [Obj.getV_set_ne _ _ (by decide)]] <;>
    simp [Obj.getV, Obj.get?, enrichPlayerDataWithProfileDetails_fst,
      Obj.get?_set_ne _ _ (show ("displayName" : String) ≠ "placement" by decide),
      applyProfileInfo_get?_untouched player (show ("placement" : String) ≠ "tag" by decide)
        (by decide) (by decide) (by decide)]

theorem mkStanding_getV_wins (env : NHRLEnv) (player : Obj) :
    Obj.getV (mkStanding env player) "wins" = Obj.getV player "wins" := by
  unfold mkStanding
  dsimp only
  rcases Obj.get? (enrichPlayerDataWithProfileDetails env player).2 "tag" with _ | tag <;>
    dsimp only <;>
    [skip; rw [Obj.getV_set_ne _ _ (by decide)]] <;>
    simp [Obj.getV, Obj.get?, enrichPlayerDataWithProfileDetails_fst,
      Obj.get?_set_ne _ _ (show ("displayName" : String) ≠ "wins" by decide),
      applyProfileInfo_get?_untouched player (show ("wins" : String) ≠ "tag" by decide)
        (by decide) (by decide) (by decide)]

theorem mkStanding_getV_losses (env : NHRLEnv) (player : Obj) :
    Obj.getV (mkStanding env player) "losses" = Obj.getV player "losses" := by
  unfold mkStanding
  dsimp only
  rcases Obj.get? (enrichPlayerDataWithProfileDetails env player).2 "tag" with _ | tag <;>
    dsimp only <;>
    [skip; rw [Obj.getV_set_ne _ _ (by decide)]] <;>
    simp [Obj.getV, Obj.get?, enrichPlayerDataWithProfileDetails_fst,
      Obj.get?_set_ne _ _ (show ("displayName" : String) ≠ "losses" by decide),
      applyProfileInfo_get?_untouched player (show ("losses" : String) ≠ "tag" by decide)
        (by decide) (by decide) (by decide)]

theorem wfStandingB_mkStanding (env : NHRLEnv) {player : Obj}
    (h : wfPlayerB (.obj player) = true) :
    wfStandingB (mkStanding env player) = true := by
  unfold wfPlayerB at h
  unfold wfStandingB
  rw [mkStanding_getV_placement, mkStanding_getV_wins, mkStanding_getV_losses]
  exact h

theorem sRecLess_false_trans (A B C : SRec)
    (h1 : sRecLess B A = false) (h2 : sRecLess C B = false) :
    sRecLess C A = false := by
  obtain ⟨pa, wa, la⟩ := A
  obtain ⟨pb, wb, lb⟩ := B
  obtain ⟨pc, wc, lc⟩ := C
  rcases pa with _ | pa <;> rcases pb with _ | pb <;> rcases pc with _ | pc <;>
    simp_all [sRecLess] <;> first
      | omega
      | (split_ifs at * <;> try simp_all) <;> omega

theorem sRecLess_asymm (x y : SRec) (h : sRecLess x y = true) :
    sRecLess y x = false := by
  obtain ⟨px, wx, lx⟩ := x
  obtain ⟨py, wy, ly⟩ := y
  rcases px with _ | px <;> rcases py with _ | py <;>
    simp_all [sRecLess] <;> first
      | omega
      | (split_ifs at * <;> try simp_all) <;> omega

/-- Transitivity of «not ordered after» for the totalised comparator. -/
theorem standings_le_trans (a b c : Obj)
    (h1 : (!standingsLessD b a) = true) (h2 : (!standingsLessD c b) = true) :
    (!standingsLessD c a) = true := by
  unfold standingsLessD at *
  simp only [Bool.not_eq_true'] at *
  exact sRecLess_false_trans _ _ _ h1 h2

/-- Totality of «not ordered after» for the totalised comparator. -/
theorem standings_le_total (a b : Obj) :
    ((!standingsLessD b a) || (!standingsLessD a b)) = true := by
  unfold standingsLessD
  rcases h : sRecLess (parseStanding b) (parseStanding a)
  · simp
  · simp [sRecLess_asymm _ _ h]

/-- On well-formed records, «not ordered after» under the code's
comparator implies the order the claim describes. -/
theorem claimPrecedes_of_le {a b : Obj}
    (ha : wfStandingB a = true) (hb : wfStandingB b = true)
    (h : standingsLessD b a = false) : claimPrecedes a b := by
  unfold wfStandingB at ha hb
  unfold standingsLessD sRecLess parseStanding at h
  unfold claimPrecedes
  rcases hpa : Obj.getV a "placement" with _ | _ | pa | _ | _ | _ <;>
    rw [hpa] at ha h <;> try dsimp only at ha h
  case bool => simp at ha
  case str => simp at ha
  case arr => simp at ha
  case obj => simp at ha
  case null =>
    rcases hpb : Obj.getV b "placement" with _ | _ | pb | _ | _ | _ <;>
      rw [hpb] at hb h <;> try dsimp only at hb h
    case bool => simp at hb
    case str => simp at hb
    case arr => simp at hb
    case obj => simp at hb
    case num =>
      -- a nil, b placed: the comparator orders b strictly before a
      simp at h
    case null =>
      -- both nil: wins/losses numeric by well-formedness
      rw [Bool.and_eq_true] at ha hb
      obtain ⟨haw, hal⟩ := ha
      obtain ⟨hbw, hbl⟩ := hb
      rcases hwa : Obj.getV a "wins" with _ | _ | wa | _ | _ | _ <;>
        rw [hwa] at haw h <;> try simp at haw
      rcases hwb : Obj.getV b "wins" with _ | _ | wb | _ | _ | _ <;>
        rw [hwb] at hbw h <;> try simp at hbw
      rcases hla : Obj.getV a "losses" with _ | _ | la | _ | _ | _ <;>
        rw [hla] at hal h <;> try simp at hal
      rcases hlb : Obj.getV b "losses" with _ | _ | lb | _ | _ | _ <;>
        rw [hlb] at hbl h <;> try simp at hbl
      refine Or.inr (Or.inr ⟨rfl, rfl, wa, la, wb, lb, rfl, rfl, rfl, rfl, ?_⟩)
      dsimp only at h
      split_ifs at h <;> (simp_all; try omega)
  case num =>
    rcases hpb : Obj.getV b "placement" with _ | _ | pb | _ | _ | _ <;>
      rw [hpb] at hb h <;> try dsimp only at hb h
    case bool => simp at hb
    case str => simp at hb
    case arr => simp at hb
    case obj => simp at hb
    case null => exact Or.inr (Or.inl ⟨⟨pa, rfl⟩, rfl⟩)
    case num =>
      refine Or.inl ⟨pa, pb, rfl, rfl, ?_⟩
      simp at h
      omega

/-- With every participant record well-formed, the unsorted standings
are exactly the non-bye participants, in order. -/
theorem standingsOf_eq (env : NHRLEnv) (players : List JVal)
    (hwf : ∀ pv ∈ players, wfPlayerB pv = true) :
    standingsOf env players =
      (players.filter (fun pv => !isByeTrueB pv)).map
        (fun pv => mkStanding env (asObjD pv)) := by
  induction players with
  | nil => rfl
  | cons hd tl ih =>
    have hhd := hwf hd (by simp)
    have htl := ih (fun pv hpv => hwf pv (by simp [hpv]))
    rcases hd with _ | _ | _ | _ | _ | player
    case obj =>
      unfold standingsOf at htl ⊢
      rw [List.filterMap_cons, List.filter_cons]
      unfold isByeTrueB asObjD
      dsimp only
      rcases hib : Obj.getV player "isBye" with _ | bb | _ | _ | _ | _
      case bool => rcases bb <;> (simp [hib, htl]; try rfl)
      all_goals (simp [hib, htl]; try rfl)
    all_goals exact absurd hhd (by simp [wfPlayerB])

/-- C3: standings content and order.  For every participant list whose
records are well-formed (placement nil or numeric; wins/losses numeric
when placement is nil — otherwise the Go comparator panics, see C4),
the standings list contains exactly the participants with
`isBye != true` (as standing entries, a permutation of their input
order), and is ordered so that placed records precede unplaced ones,
placed records are in ascending placement, and unplaced records are in
descending wins with ties in ascending losses. -/
theorem claim_C3_standings_content_and_order (env : NHRLEnv) (players : List JVal)
    (hwf : ∀ pv ∈ players, wfPlayerB pv = true) :
    List.Perm (getBracketStandingsModel env players)
      ((players.filter (fun pv => !isByeTrueB pv)).map
        (fun pv => mkStanding env (asObjD pv))) ∧
    (getBracketStandingsModel env players).Pairwise claimPrecedes := by
  constructor
  · have hperm : List.Perm (getBracketStandingsModel env players)
        (standingsOf env players) :=
      List.mergeSort_perm _ _
    rw [standingsOf_eq env players hwf] at hperm
    exact hperm
  · have hsorted :=
      List.sorted_mergeSort
        (fun a b c h1 h2 => standings_le_trans a b c h1 h2)
        (fun a b => standings_le_total a b)
        (standingsOf env players)
    have hmem : ∀ x ∈ getBracketStandingsModel env players, wfStandingB x = true := by
      intro x hx
      have hx' : x ∈ standingsOf env players := List.mem_mergeSort.mp hx
      rw [standingsOf_eq env players hwf] at hx'
      obtain ⟨pv, hpv, rfl⟩ := List.mem_map.mp hx'
      have hw := hwf pv (List.mem_filter.mp hpv).1
      rcases pv with _ | _ | _ | _ | _ | player
      case obj => exact wfStandingB_mkStanding env hw
      all_goals exact absurd hw (by simp [wfPlayerB])
    exact hsorted.imp_of_mem fun {x y} hx hy hxy =>
      claimPrecedes_of_le (hmem x hx) (hmem y hy) (by simpa using hxy)

/-- The four-record example of spec §8. -/
def exStandingsPlayers : List JVal :=
  [.obj [("id", .str "a"), ("name", .str "A"), ("placement", .num 2)],
   .obj [("id", .str "b"), ("name", .str "B"), ("placement", .null),
         ("wins", .num 5), ("losses", .num 1)],
   .obj [("id", .str "c"), ("name", .str "C"), ("placement", .num 1)],
   .obj [("id", .str "d"), ("name", .str "D"), ("placement", .null),
         ("wins", .num 3), ("losses", .num 0)]]

/-- C3 witness: the content/order theorem applied to the §8 example. -/
theorem claim_C3_witness :
    (∀ pv ∈ exStandingsPlayers, wfPlayerB pv = true) ∧
    (List.Perm (getBracketStandingsModel failEnv exStandingsPlayers)
      ((exStandingsPlayers.filter (fun pv => !isByeTrueB pv)).map
        (fun pv => mkStanding failEnv (asObjD pv))) ∧
     (getBracketStandingsModel failEnv exStandingsPlayers).Pairwise claimPrecedes) :=
  ⟨by decide,
   claim_C3_standings_content_and_order failEnv exStandingsPlayers (by decide)⟩

/-- The §8 example sorts to [placement 1, placement 2, wins 5/losses 1,
wins 3/losses 0], i.e. players c, a, b, d. -/
theorem standings_example_eval :
    (getBracketStandingsModel failEnv exStandingsPlayers).map
        (fun st => Obj.getV st "playerID") =
      [.str "c", .str "a", .str "b", .str "d"] := by
  simp [getBracketStandingsModel, standingsOf, mkStanding,
    enrichPlayerDataWithProfileDetails, applyProfileInfo, writeProfileStr,
    enrichPlayerWithNHRLStats, botNameOf, botPictureObj,
    exStandingsPlayers, failEnv, List.mergeSort, standingsLessD, parseStanding,
    sRecLess, Obj.getV, Obj.get?, Obj.set, asStr?]

/-! ## Go's `sort.Slice` (pdqsort), transcribed from `sort/zsortfunc.go`

`getBracket` / `getBracketRound` sort games with `sort.Slice`, which Go
documents as **not** stable.  To settle the stability claim (C5) the
actual algorithm is embedded: pattern-defeating quicksort over a
`lessSwap` pair, with insertion sort below 13 elements, heapsort as the
depth-limit fallback, Tukey-ninther pivot selection, and the
partial-insertion-sort / partition-equal shortcuts.  Loops are given
explicit fuel (every loop of the Go code strictly decreases `b - a` or
terminates the call, so any fuel ≥ `b - a + 1` computes the same
result); this keeps every function structurally recursive and
kernel-computable. -/

section GoSort

variable {α : Type}

/-- `data.Less(i, j)`.  The Go indices are always in bounds on every
executed path; out-of-bounds reads are given a junk value. -/
def lessAt (less : α → α → Bool) (xs : Array α) (i j : Nat) : Bool :=
  match xs[i]?, xs[j]? with
  | some x, some y => less x y
  | _, _ => false

/-- `data.Swap(i, j)`. -/
def aswap (xs : Array α) (i j : Nat) : Array α :=
  match xs[i]?, xs[j]? with
  | some x, some y => (xs.setD i y).setD j x
  | _, _ => xs

/-- Inner loop of `insertionSort_func`: shift element `j` left while it
is less than its predecessor. -/
def insertionSortInner (less : α → α → Bool) : Nat → Array α → Nat → Nat → Array α
  | 0, xs, _, _ => xs
  | fuel + 1, xs, a, j =>
    if a < j && lessAt less xs j (j - 1) then
      insertionSortInner less fuel (aswap xs j (j - 1)) a (j - 1)
    else xs

/-- Outer loop of `insertionSort_func`. -/
def insertionSortLoop (less : α → α → Bool) : Nat → Array α → Nat → Nat → Nat → Array α
  | 0, xs, _, _, _ => xs
  | fuel + 1, xs, a, b, i =>
    if i < b then
      insertionSortLoop less fuel (insertionSortInner less (i + 1) xs a i) a b (i + 1)
    else xs

/-- `insertionSort_func(data, a, b)`. -/
def insertionSort (less : α → α → Bool) (xs : Array α) (a b : Nat) : Array α :=
  insertionSortLoop less (b + 1) xs a b (a + 1)

/-- `siftDown_func(data, lo, hi, first)`. -/
def siftDown (less : α → α → Bool) : Nat → Array α → Nat → Nat → Nat → Array α
  | 0, xs, _, _, _ => xs
  | fuel + 1, xs, root, hi, first =>
    let child := 2 * root + 1
    if child ≥ hi then xs
    else
      let child :=
        if child + 1 < hi && lessAt less xs (first + child) (first + child + 1) then
          child + 1
        else child
      if !lessAt less xs (first + root) (first + child) then xs
      else siftDown less fuel (aswap xs (first + root) (first + child)) child hi first

/-- First loop of `heapSort_func`: build the heap.  `i` counts down
from `(hi-1)/2` to `0`. -/
def heapSortBuild (less : α → α → Bool) : Nat → Array α → Nat → Nat → Nat → Array α
  | 0, xs, _, _, _ => xs
  | fuel + 1, xs, i, hi, first =>
    let xs := siftDown less (hi + 1) xs i hi first
    if i = 0 then xs else heapSortBuild less fuel xs (i - 1) hi first

/-- Second loop of `heapSort_func`: pop elements, largest first. -/
def heapSortPop (less : α → α → Bool) : Nat → Array α → Nat → Nat → Array α
  | 0, xs, _, _ => xs
  | fuel + 1, xs, i, first =>
    let xs := aswap xs first (first + i)
    let xs := siftDown less (i + 1) xs 0 i first
    if i = 0 then xs else heapSortPop less fuel xs (i - 1) first

/-- `heapSort_func(data, a, b)`. -/
def heapSort (less : α → α → Bool) (xs : Array α) (a b : Nat) : Array α :=
  let first := a
  let hi := b - a
  let xs := heapSortBuild less (hi + 1) xs ((hi - 1) / 2) hi first
  if hi = 0 then xs else heapSortPop less (hi + 1) xs (hi - 1) first

/-- `reverseRange_func(data, a, b)`. -/
def reverseRange : Nat → Array α → Nat → Nat → Array α
  | 0, xs, _, _ => xs
  | fuel + 1, xs, i, j =>
    if i < j then reverseRange fuel (aswap xs i j) (i + 1) (j - 1) else xs

/-- `order2_func`: order two indices by the data they point to,
counting a would-be swap. -/
def order2 (less : α → α → Bool) (xs : Array α) (a b swaps : Nat) :
    Nat × Nat × Nat :=
  if lessAt less xs b a then (b, a, swaps + 1) else (a, b, swaps)

/-- `median_func`: the index of the median of three, updating the swap
counter. -/
def medianIdx (less : α → α → Bool) (xs : Array α) (a b c swaps : Nat) :
    Nat × Nat :=
  let (a, b, swaps) := order2 less xs a b swaps
  let (b, _, swaps) := order2 less xs b c swaps
  let (_, b, swaps) := order2 less xs a b swaps
  (b, swaps)

/-- `medianAdjacent_func`. -/
def medianAdjacent (less : α → α → Bool) (xs : Array α) (a swaps : Nat) :
    Nat × Nat :=
  medianIdx less xs (a - 1) a (a + 1) swaps

inductive SortedHint where
  | increasingHint
  | decreasingHint
  | unknownHint
deriving DecidableEq

/-- `choosePivot_func(data, a, b)`. -/
def choosePivot (less : α → α → Bool) (xs : Array α) (a b : Nat) :
    Nat × SortedHint :=
  let l := b - a
  let i := a + l / 4 * 1
  let j := a + l / 4 * 2
  let k := a + l / 4 * 3
  let (j, swaps) :=
    if l ≥ 8 then
      if l ≥ 50 then
        let (i, swaps) := medianAdjacent less xs i 0
        let (j, swaps) := medianAdjacent less xs j swaps
        let (k, swaps) := medianAdjacent less xs k swaps
        medianIdx less xs i j k swaps
      else
        medianIdx less xs i j k 0
    else (j, 0)
  if swaps = 0 then (j, .increasingHint)
  else if swaps = 12 then (j, .decreasingHint)
  else (j, .unknownHint)

/-- The leftward shifting loop of `partialInsertionSort_func`. -/
def pisShiftLeft (less : α → α → Bool) : Nat → Array α → Nat → Array α
  | 0, xs, _ => xs
  | fuel + 1, xs, j =>
    if j ≥ 1 then
      if !lessAt less xs j (j - 1) then xs
      else pisShiftLeft less fuel (aswap xs j (j - 1)) (j - 1)
    else xs

/-- The rightward shifting loop of `partialInsertionSort_func`. -/
def pisShiftRight (less : α → α → Bool) : Nat → Array α → Nat → Nat → Array α
  | 0, xs, _, _ => xs
  | fuel + 1, xs, j, b =>
    if j < b then
      if !lessAt less xs j (j - 1) then xs
      else pisShiftRight less fuel (aswap xs j (j - 1)) (j + 1) b
    else xs

/-- The scan `for i < b && !data.Less(i, i-1) { i++ }`. -/
def pisScan (less : α → α → Bool) : Nat → Array α → Nat → Nat → Nat
  | 0, _, i, _ => i
  | fuel + 1, xs, i, b =>
    if i < b && !lessAt less xs i (i - 1) then pisScan less fuel xs (i + 1) b
    else i

/-- `partialInsertionSort_func(data, a, b)`: partially sort and report
whether the range ended fully sorted (maxSteps = 5,
shortestShifting = 50). -/
def partialInsertionSort (less : α → α → Bool) :
    Nat → Array α → Nat → Nat → Nat → Bool × Array α
  | 0, xs, _, _, _ => (false, xs)
  | fuel + 1, xs, a, b, i =>
    let i := pisScan less (b + 1) xs i b
    if i = b then (true, xs)
    else if b - a < 50 then (false, xs)
    else
      let xs := aswap xs i (i - 1)
      let xs := if i - a ≥ 2 then pisShiftLeft less i xs (i - 1) else xs
      let xs := if b - i ≥ 2 then pisShiftRight less (b + 1) xs (i + 1) b else xs
      partialInsertionSort less fuel xs a b i

/-- One step of the u64 xorshift PRNG used by `breakPatterns_func`. -/
def xorshiftNext (r : Nat) : Nat :=
  let r := (r ^^^ (r <<< 13)) % 2 ^ 64
  let r := r ^^^ (r >>> 7)
  let r := (r ^^^ (r <<< 17)) % 2 ^ 64
  r

/-- Fuelled helper for `bitsLen` (kept structurally recursive so that
concrete runs reduce in the kernel). -/
def bitsLenAux : Nat → Nat → Nat
  | 0, _ => 0
  | fuel + 1, n => if n = 0 then 0 else bitsLenAux fuel (n / 2) + 1

/-- `bits.Len(uint(n))`: the number of bits needed to represent `n`. -/
def bitsLen (n : Nat) : Nat :=
  bitsLenAux (n + 1) n

/-- `nextPowerOfTwo(length) = 1 << bits.Len(uint(length))`. -/
def nextPowerOfTwo (length : Nat) : Nat :=
  1 <<< bitsLen length

/-- The three random swaps of `breakPatterns_func`. -/
def breakPatternsLoop : Nat → Array α → Nat → Nat → Nat → Nat → Nat → Array α
  | 0, xs, _, _, _, _, _ => xs
  | fuel + 1, xs, i, random, modulus, a, length =>
    if i < 3 then
      let random := xorshiftNext random
      let other := random % 2 ^ 64 &&& (modulus - 1)
      let other := if other ≥ length then other - length else other
      let idx := a + length / 4 * 2 - 1
      breakPatternsLoop fuel (aswap xs (idx - 1 + i) (other + a)) (i + 1) random
        modulus a length
    else xs

/-- `breakPatterns_func(data, a, b)`. -/
def breakPatterns (xs : Array α) (a b : Nat) : Array α :=
  let length := b - a
  if length ≥ 8 then
    breakPatternsLoop 4 xs 0 length (nextPowerOfTwo length) a length
  else xs

/-- `for i <= j && data.Less(i, a) { i++ }`. -/
def partAdvanceI (less : α → α → Bool) : Nat → Array α → Nat → Nat → Nat → Nat
  | 0, _, i, _, _ => i
  | fuel + 1, xs, i, j, a =>
    if i ≤ j && lessAt less xs i a then partAdvanceI less fuel xs (i + 1) j a
    else i

/-- `for i <= j && !data.Less(j, a) { j-- }`. -/
def partRetreatJ (less : α → α → Bool) : Nat → Array α → Nat → Nat → Nat → Nat
  | 0, _, _, j, _ => j
  | fuel + 1, xs, i, j, a =>
    if i ≤ j && !lessAt less xs j a then partRetreatJ less fuel xs i (j - 1) a
    else j

/-- The steady-state loop of `partition_func`. -/
def partitionLoop (less : α → α → Bool) :
    Nat → Array α → Nat → Nat → Nat → Nat → Array α × Nat
  | 0, xs, _, j, _, _ => (xs, j)
  | fuel + 1, xs, i, j, a, b =>
    let i := partAdvanceI less (b + 1) xs i j a
    let j := partRetreatJ less (b + 1) xs i j a
    if i > j then (xs, j)
    else partitionLoop less fuel (aswap xs i j) (i + 1) (j - 1) a b

/-- `partition_func(data, a, b, pivot)`: Hoare-style partition around
the pivot moved to `a`; returns the new data, the final pivot position
and whether the range was already partitioned. -/
def partitionGo (less : α → α → Bool) (xs : Array α) (a b pivot : Nat) :
    Array α × Nat × Bool :=
  let xs := aswap xs a pivot
  let i := a + 1
  let j := b - 1
  let i := partAdvanceI less (b + 1) xs i j a
  let j := partRetreatJ less (b + 1) xs i j a
  if i > j then
    (aswap xs j a, j, true)
  else
    let xs := aswap xs i j
    let (xs, j) := partitionLoop less (b + 1) xs (i + 1) (j - 1) a b
    (aswap xs j a, j, false)

/-- `for i <= j && !data.Less(a, i) { i++ }`. -/
def partEqAdvanceI (less : α → α → Bool) : Nat → Array α → Nat → Nat → Nat → Nat
  | 0, _, i, _, _ => i
  | fuel + 1, xs, i, j, a =>
    if i ≤ j && !lessAt less xs a i then partEqAdvanceI less fuel xs (i + 1) j a
    else i

/-- `for i <= j && data.Less(a, j) { j-- }`. -/
def partEqRetreatJ (less : α → α → Bool) : Nat → Array α → Nat → Nat → Nat → Nat
  | 0, _, _, j, _ => j
  | fuel + 1, xs, i, j, a =>
    if i ≤ j && lessAt less xs a j then partEqRetreatJ less fuel xs i (j - 1) a
    else j

/-- The loop of `partitionEqual_func`. -/
def partitionEqualLoop (less : α → α → Bool) :
    Nat → Array α → Nat → Nat → Nat → Nat → Array α × Nat
  | 0, xs, i, _, _, _ => (xs, i)
  | fuel + 1, xs, i, j, a, b =>
    let i := partEqAdvanceI less (b + 1) xs i j a
    let j := partEqRetreatJ less (b + 1) xs i j a
    if i > j then (xs, i)
    else partitionEqualLoop less fuel (aswap xs i j) (i + 1) (j - 1) a b

/-- `partitionEqual_func(data, a, b, pivot)`: partition elements equal
to the pivot (moved to `a`) from the greater ones. -/
def partitionEqualGo (less : α → α → Bool) (xs : Array α) (a b pivot : Nat) :
    Array α × Nat :=
  let xs := aswap xs a pivot
  partitionEqualLoop less (b + 1) xs (a + 1) (b - 1) a b

/-- `pdqsort_func(data, a, b, limit)`: the main loop.  Each `continue`
of the Go loop is a tail call with decremented fuel; each recursive
half-sort also re-enters with decremented fuel.  Any fuel larger than
`b - a + limit + 1` is enough, since every iteration strictly shrinks
the range (or switches to insertion/heap sort). -/
def pdqsortRec (less : α → α → Bool) :
    Nat → Array α → Nat → Nat → Nat → Bool → Bool → Array α
  | 0, xs, _, _, _, _, _ => xs
  | fuel + 1, xs, a, b, limit, wasBalanced, wasPartitioned =>
    let length := b - a
    if length ≤ 12 then insertionSort less xs a b
    else if limit = 0 then heapSort less xs a b
    else
      let st := if !wasBalanced then (breakPatterns xs a b, limit - 1) else (xs, limit)
      let xs := st.1
      let limit := st.2
      let pv := choosePivot less xs a b
      let pivot := pv.1
      let hint := pv.2
      let xs :=
        if hint = SortedHint.decreasingHint then reverseRange (b + 1) xs a (b - 1)
        else xs
      let pivot :=
        if hint = SortedHint.decreasingHint then (b - 1) - (pivot - a) else pivot
      let hint :=
        if hint = SortedHint.decreasingHint then SortedHint.increasingHint else hint
      let pis :=
        if wasBalanced && wasPartitioned && hint = SortedHint.increasingHint then
          partialInsertionSort less 6 xs a b (a + 1)
        else (false, xs)
      if pis.1 then pis.2
      else
        let xs := pis.2
        if decide (a > 0) && !lessAt less xs (a - 1) pivot then
          let pe := partitionEqualGo less xs a b pivot
          pdqsortRec less fuel pe.1 pe.2 b limit wasBalanced wasPartitioned
        else
          let pr := partitionGo less xs a b pivot
          let xs := pr.1
          let mid := pr.2.1
          let wasPartitioned := pr.2.2
          let leftLen := mid - a
          let rightLen := b - mid
          let balanceThreshold := length / 8
          let wasBalanced := decide (min leftLen rightLen ≥ balanceThreshold)
          if leftLen < rightLen then
            let xs := pdqsortRec less fuel xs a mid limit wasBalanced wasPartitioned
            pdqsortRec less fuel xs (mid + 1) b limit wasBalanced wasPartitioned
          else
            let xs := pdqsortRec less fuel xs (mid + 1) b limit wasBalanced wasPartitioned
            pdqsortRec less fuel xs a mid limit wasBalanced wasPartitioned

/-- `sort.Slice(x, less)`: pdqsort over the whole slice with depth
limit `bits.Len(uint(n))`. -/
def sortSliceGo (less : α → α → Bool) (xs : List α) : List α :=
  let arr := xs.toArray
  let n := arr.size
  let limit := bitsLen n
  (pdqsortRec less (n + limit + 2) arr 0 n limit true true).toList

end GoSort

/-! ## Round organisation in `getBracket` (lines 121‑166) -/

/-- One assembled `BracketRound`. -/
structure BracketRoundL where
  round : Int
  roundName : String
  bracketType : String
  games : List EGame

/-- The name an enriched game is sorted by.  The Go comparator asserts
`games[i]["name"].(string)` without the comma-ok form and panics on a
non-string name (see C4); on games whose names are strings — the only
ones for which the sort completes — this defaulted read coincides. -/
def gameNameOf (g : EGame) : String :=
  (asStr? g.name).getD ""

/-- Lexicographic order on character lists by code point. -/
def charListLt : List Char → List Char → Bool
  | [], [] => false
  | [], _ :: _ => true
  | _ :: _, [] => false
  | c :: cs, d :: ds =>
    if c.toNat < d.toNat then true
    else if d.toNat < c.toNat then false
    else charListLt cs ds

/-- Go's `<` on strings compares the UTF-8 bytes lexicographically;
since UTF-8 preserves code-point order, that is exactly code-point
lexicographic order on the characters. -/
def goStringLt (s t : String) : Bool :=
  charListLt s.data t.data

/-- The within-round game sort: `sort.Slice(games, by name)`. -/
def sortGamesByName (games : List EGame) : List EGame :=
  sortSliceGo (fun gi gj => goStringLt (gameNameOf gi) (gameNameOf gj)) games

/-- The games appended to `roundsMap[key]`: the games of the input
slice whose classification matches the key, in input order. -/
def roundGroup (formatType : String) (games : List EGame) (key : String × Int) :
    List EGame :=
  games.filter (fun g =>
    match asNum? g.round with
    | some r => decide ((bracketTypeOf formatType r, goAbs r) = key)
    | none => false)

/-- First-occurrence deduplication of the group keys (fuelled).  Go
iterates `roundsMap` in unspecified order; first-occurrence order is
one admissible order, and the rounds are sorted afterwards anyway. -/
def dedupFirst : Nat → List (String × Int) → List (String × Int)
  | 0, _ => []
  | _, [] => []
  | fuel + 1, k :: rest =>
    k :: dedupFirst fuel (rest.filter (fun x => !decide (x = k)))

/-- The final rounds sort (`part_006`, lines 161‑166): winners rounds
before others, ascending round within a bracket type. -/
def roundsLess (x y : BracketRoundL) : Bool :=
  if x.bracketType ≠ y.bracketType then x.bracketType = "winners"
  else x.round < y.round

/-- The round-organisation phase of `getBracket` (`part_006`, lines
121‑166) over already-enriched games, with the panics made explicit:
`round := int(game["round"].(float64))` panics on a game whose `round`
is missing or non-numeric (`none`), and the within-round name sort
panics when a round with at least two games contains a non-string
`name` (the sort's comparator touches every element of such a round at
least once). -/
def organizeRounds (formatType : String) (games : List EGame) :
    Option (List BracketRoundL) := do
  let keyed ← games.mapM (fun g =>
    (asNum? g.round).map (fun r => (bracketTypeOf formatType r, goAbs r)))
  let keys := dedupFirst keyed.length keyed
  let rounds ← keys.mapM (fun k =>
    let group := roundGroup formatType games k
    if decide (2 ≤ group.length) && group.any (fun g => (asStr? g.name).isNone) then
      none
    else
      some { round := k.2
             roundName := getRoundName k.2 k.1 formatType
             bracketType := k.1
             games := sortGamesByName group })
  some (sortSliceGo roundsLess rounds)

/-- A game record with no `round` key at all. -/
def c4BadGame : Obj :=
  [("id", .str "g1"), ("name", .str "X"), ("state", .str "available")]

/-- C4: a malformed record aborts the whole operation.  The enrichment
itself is best-effort (the bad game still enriches, with its `round`
reading as null), but `getBracket`'s round-organisation phase performs
`int(game["round"].(float64))` without the comma-ok form: a game with
no `round` panics the whole request instead of having the derived
field omitted.  Likewise the standings comparator asserts
`.(float64)` on `wins`, so two unplaced records with missing `wins`
panic `getBracketStandings`. -/
theorem claim_C4_malformed_record_aborts :
    (enrichGameForBracket [] c4BadGame).name = .str "X" ∧
    (enrichGameForBracket [] c4BadGame).round = .null ∧
    organizeRounds "double_elimination" [enrichGameForBracket [] c4BadGame] = none ∧
    standingsLess? [("placement", JVal.null)] [("placement", JVal.null)] = none :=
  ⟨rfl, rfl, rfl, rfl⟩

/-- A minimal raw game for the sort-stability experiment. -/
def c5Game (name id : String) : Obj :=
  [("id", .str id), ("name", .str name), ("round", .num 1),
   ("state", .str "available")]

/-- Thirteen games of one round — just enough to push `sort.Slice`
beyond its 12-element insertion-sort cutoff into quicksort
partitioning.  Games 5 and 8 share the name "D" (also 0/6 share "E"
and 4/7/9 share "A"). -/
def c5Games : List Obj :=
  [c5Game "E" "g0", c5Game "B" "g1", c5Game "B" "g2", c5Game "C" "g3",
   c5Game "A" "g4", c5Game "D" "g5", c5Game "E" "g6", c5Game "A" "g7",
   c5Game "D" "g8", c5Game "A" "g9", c5Game "B" "g10", c5Game "F" "g11",
   c5Game "C" "g12"]

/-- C5: the within-round game sort is **not** stable.  Running the
round-organisation of `getBracket` (with Go's actual `sort.Slice`
pdqsort, embedded above) on the thirteen games of `c5Games` produces
the round's games in id order
g7 g4 g9 · g1 g2 g10 · g3 g12 · **g8 g5** · **g6 g0** · g11:
games `g5` and `g8` carry the same name "D" and entered in the order
g5, g8, yet leave in the order g8, g5 (likewise g0/g6 with name "E" and
g4/g7 with name "A") — the first partition step of pdqsort swaps
equal-keyed elements across the range.  A stable sort, as the claim
demands, would have produced g4 g7 g9 · g1 g2 g10 · g3 g12 · g5 g8 ·
g0 g6 · g11. -/
theorem claim_C5_name_sort_not_stable :
    (organizeRounds "" (c5Games.map (enrichGameForBracket []))).map
        (fun rounds => rounds.map (fun r => r.games.map (fun g => g.id))) =
      some [[.str "g7", .str "g4", .str "g9", .str "g1", .str "g2", .str "g10",
             .str "g3", .str "g12", .str "g8", .str "g5", .str "g6", .str "g0",
             .str "g11"]] ∧
    (enrichGameForBracket [] (c5Games.getD 5 [])).name =
      (enrichGameForBracket [] (c5Games.getD 8 [])).name ∧
    (enrichGameForBracket [] (c5Games.getD 5 [])).name = .str "D" :=
  ⟨rfl, rfl, rfl⟩

end NHRLMCP
